import Mathlib

/-!
SMT-Frustrator: a verification development of `antiSMT.cpp`.

The C++ program generates disguised Pell-type equations.  This file embeds its
functions in Lean and proves properties of them.

Conventions of the embedding

* A C++ `int` is an `Int`; every arithmetic operation on `int`s is followed by
  `wrap32`, the reduction into the signed 32-bit range.
* A finite C++ `double` is a pair of a mantissa and an exponent (`Dbl`), and
  `Dbl.toRat` is the rational number it denotes.
* The conversions to `int` that C++ leaves undefined are fields of a `Platform`.
* The collaborators (the random sources, the solver, the clock) are explicit
  arguments: the model is a function of what they answer.
-/

namespace AntiSMT

/-! ## 32-bit machine integers -/

/-- Reduction of an exact integer into the range of a signed 32-bit `int`. -/
def wrap32 (x : Int) : Int := (x + 2147483648) % 4294967296 - 2147483648

/-- The values a signed 32-bit `int` can hold. -/
def InInt32 (x : Int) : Prop := -2147483648 ≤ x ∧ x ≤ 2147483647

instance (x : Int) : Decidable (InInt32 x) := by
  unfold InInt32; infer_instance

/-- The C++ `+` on `int`. -/
def add32 (x y : Int) : Int := wrap32 (x + y)

/-- The C++ `-` on `int`. -/
def sub32 (x y : Int) : Int := wrap32 (x - y)

/-- The C++ `*` on `int`. -/
def mul32 (x y : Int) : Int := wrap32 (x * y)

/-- The C++ unary `-` on `int`. -/
def neg32 (x : Int) : Int := wrap32 (-x)

/-- The C++ `std::abs` on `int`. -/
def abs32 (x : Int) : Int := if x < 0 then neg32 x else x

/-! ## Data model (`antiSMT.h`) -/

/-- The struct `QF`: `coeff_uu·u² + coeff_uv·u·v + coeff_vv·v² = rhs`. -/
structure QF where
  coeff_uu : Int
  coeff_uv : Int
  coeff_vv : Int
  rhs : Int
  deriving DecidableEq, Repr

/-- The type `std::tuple<int,int,int,int>` of the matrix `(a, b, c, d)`. -/
abbrev Mat := Int × Int × Int × Int

/-! ## `pell_transformer` -/

/-- The function `pell_transformer` of `antiSMT.cpp`, in 32-bit arithmetic,
with the association of the products of the source (`D * c * c` is `(D * c) * c`). -/
def pell_transformer (D : Int) (mat : Mat) : QF :=
  let a := mat.1
  let b := mat.2.1
  let c := mat.2.2.1
  let d := mat.2.2.2
  let delta := sub32 (mul32 a d) (mul32 b c)
  { coeff_uu := sub32 (mul32 d d) (mul32 (mul32 D c) c)
    coeff_uv := add32 (mul32 (mul32 (-2) d) b) (mul32 (mul32 (mul32 2 D) c) a)
    coeff_vv := sub32 (mul32 b b) (mul32 (mul32 D a) a)
    rhs := mul32 delta delta }

/-- The closed form of the specification (section 4.3), over exact integers. -/
def pell_closed_form (D : Int) (mat : Mat) : QF :=
  let a := mat.1
  let b := mat.2.1
  let c := mat.2.2.1
  let d := mat.2.2.2
  { coeff_uu := d ^ 2 - D * c ^ 2
    coeff_uv := -2 * d * b + 2 * D * c * a
    coeff_vv := b ^ 2 - D * a ^ 2
    rhs := (a * d - b * c) ^ 2 }

/-- Every product, sum and difference that `pell_transformer` computes on
`(D, (a, b, c, d))` is representable as a signed 32-bit `int`. -/
def NoOverflow (D a b c d : Int) : Prop :=
  InInt32 (a * d) ∧ InInt32 (b * c) ∧ InInt32 (a * d - b * c) ∧
  InInt32 (d * d) ∧ InInt32 (D * c) ∧ InInt32 (D * c * c) ∧
  InInt32 (d * d - D * c * c) ∧
  InInt32 (-2 * d) ∧ InInt32 (-2 * d * b) ∧ InInt32 (2 * D) ∧
  InInt32 (2 * D * c) ∧ InInt32 (2 * D * c * a) ∧
  InInt32 (-2 * d * b + 2 * D * c * a) ∧
  InInt32 (b * b) ∧ InInt32 (D * a) ∧ InInt32 (D * a * a) ∧
  InInt32 (b * b - D * a * a) ∧
  InInt32 ((a * d - b * c) * (a * d - b * c))

instance (D a b c d : Int) : Decidable (NoOverflow D a b c d) := by
  unfold NoOverflow; infer_instance

/-! ## Conversions from `double` to `int` that the language leaves open -/

/-- A finite `double`, written as the number `m · 2^e` with an integer
mantissa `m` and an integer exponent `e`. -/
structure Dbl where
  m : Int
  e : Int
  deriving DecidableEq, Repr

/-- The rational number a `Dbl` denotes. -/
def Dbl.toRat (x : Dbl) : ℚ := (x.m : ℚ) * (2 : ℚ) ^ x.e

/-- The conversion of an `int` to `double`, which is exact. -/
def Dbl.ofInt (t : Int) : Dbl := ⟨t, 0⟩

/-- The mantissa of `x` once its exponent is lowered to `k` (for `k ≤ x.e`). -/
def Dbl.mant (x : Dbl) (k : Int) : Int := x.m * 2 ^ (x.e - k).toNat

/-- The comparison `a < b` of two `double`s, on aligned mantissas. -/
def Dbl.lt (a b : Dbl) : Prop := a.mant (min a.e b.e) < b.mant (min a.e b.e)

instance (a b : Dbl) : Decidable (Dbl.lt a b) := by
  unfold Dbl.lt; infer_instance

/-- The results of the two conversions to `int` that C++ leaves undefined and
the hardware decides: of a NaN, and of a `double` whose truncation does not fit
in an `int`.  Both results are `int`s. -/
structure Platform where
  castNaN : Int
  castBig : Dbl → Int
  castNaN_int : InInt32 castNaN
  castBig_int : ∀ x, InInt32 (castBig x)

/-- The x86-64 convention: both conversions give `INT_MIN`. -/
def x86_64 : Platform where
  castNaN := -2147483648
  castBig := fun _ => -2147483648
  castNaN_int := by decide
  castBig_int := fun _ => by
    show InInt32 (-2147483648)
    decide

/-- The AArch64 convention: a NaN gives `0`, other values saturate. -/
def aarch64 : Platform where
  castNaN := 0
  castBig := fun x => if x.m < 0 then -2147483648 else 2147483647
  castNaN_int := by decide
  castBig_int := fun x => by
    by_cases h : x.m < 0
    · simp only [h, if_true]; decide
    · simp only [h, if_false]; decide

/-! ## `generate_PellSeeds` -/

/-- Bisection on the bits `k-1, ..., 0` for the integer square root of `n`. -/
def isqrtAux : Nat → Nat → Nat → Nat
  | 0, _, r => r
  | k + 1, n, r =>
    if (r + 2 ^ k) * (r + 2 ^ k) ≤ n then isqrtAux k n (r + 2 ^ k) else isqrtAux k n r

/-- The integer square root of `n < 2^32`. -/
def isqrt (n : Nat) : Nat := isqrtAux 16 n 0

/-- The expression `(int)floor(sqrt((double)x))`.  For `0 ≤ x < 2^31` the
conversion to `double` is exact and the correctly rounded square root of a
non-square lies strictly between two consecutive integers, so that the result
is the integer square root; for `x < 0` the square root is a NaN. -/
def floor_sqrt (P : Platform) (x : Int) : Int :=
  if x < 0 then P.castNaN else (isqrt x.toNat : Int)

/-- The expression `(int)ceil(sqrt((double)x))`, see `floor_sqrt`. -/
def ceil_sqrt (P : Platform) (x : Int) : Int :=
  if x < 0 then P.castNaN
  else if isqrt x.toNat * isqrt x.toNat = x.toNat then (isqrt x.toNat : Int)
  else (isqrt x.toNat : Int) + 1

/-- The function `generate_PellSeeds`; `rnd` is the value `rand()` returns.
The operator `%` of C++ truncates, as `Int.tmod` does. -/
def generate_PellSeeds (P : Platform) (rnd : Nat) (low high : Int) : Int :=
  if low > high ∨ high ≤ 0 then -1
  else
    let minSqrt := ceil_sqrt P low
    let maxSqrt := floor_sqrt P high
    if minSqrt > maxSqrt then -1
    else
      let range := add32 (sub32 maxSqrt minSqrt) 1
      let r := Int.tmod (rnd : Int) range
      let sq := mul32 (add32 minSqrt r) (add32 minSqrt r)
      sq

/-! ## `random_invertible_matrix` -/

/-- The exceptions the program throws, with the text `what()` returns. -/
inductive Exn where
  | invalid_argument (what : String)
  | runtime_error (what : String)
  deriving DecidableEq, Repr

/-- The text of an exception. -/
def Exn.what : Exn → String
  | Exn.invalid_argument w => w
  | Exn.runtime_error w => w

/-- One draw of `std::uniform_int_distribution<int>(lo, hi)`: the raw value of
the generator is mapped into `[lo, hi]`, and every value of `[lo, hi]` is the
image of some raw value. -/
def uniform_int (lo hi : Int) (raw : Nat) : Int := lo + (raw : Int) % (hi - lo + 1)

/-- The `for` loop of `random_invertible_matrix`: `fuel` trials remain, `trial`
is the loop counter, and trial number `trial` consumes the raw draws
`4·trial, ..., 4·trial + 3` for `a, b, c, d`, in this order. -/
def random_invertible_matrix_loop (range : Int) (draws : Nat → Nat) : Nat → Nat → Except Exn Mat
  | 0, _ => Except.error (Exn.runtime_error "Failed to generate invertible matrix.")
  | fuel + 1, trial =>
    let a := uniform_int (neg32 range) range (draws (4 * trial))
    let b := uniform_int (neg32 range) range (draws (4 * trial + 1))
    let c := uniform_int (neg32 range) range (draws (4 * trial + 2))
    let d := uniform_int (neg32 range) range (draws (4 * trial + 3))
    if sub32 (mul32 a d) (mul32 b c) ≠ 0 then Except.ok (a, b, c, d)
    else random_invertible_matrix_loop range draws fuel (trial + 1)

/-- The function `random_invertible_matrix`; `draws` is the sequence of raw
values of the generator. -/
def random_invertible_matrix (range : Int) (draws : Nat → Nat) : Except Exn Mat :=
  if range ≤ 0 then Except.error (Exn.invalid_argument "Matrix range must be positive.")
  else random_invertible_matrix_loop range draws 100 0

/-! ## `pell_verifer` -/

/-- The enumeration `z3::check_result`. -/
inductive check_result where
  | unsat
  | sat
  | unknown
  deriving DecidableEq, Repr

/-- What the call `s.check()` does: it returns a verdict or throws a
`z3::exception`. -/
inductive SolverReply where
  | returns (r : check_result)
  | throws
  deriving DecidableEq, Repr

/-- The function `pell_verifer`; `reply` is what the solver does on the query
and `elapsed` the measured time in milliseconds.  The calls that build the
query are taken to succeed; `timeout - noise` and `timeout + noise` are `int`
operations, compared with the `double` `elapsed`. -/
def pell_verifer (qf : QF) (timeout noise : Int) (reply : SolverReply) (elapsed : Dbl) :
    Except Exn QF :=
  if timeout ≤ 0 then Except.error (Exn.invalid_argument "timeout must be positive")
  else if noise < 0 then Except.error (Exn.invalid_argument "noise must be non-negative")
  else
    match reply with
    | SolverReply.throws => Except.ok qf
    | SolverReply.returns result =>
      if result = check_result.unknown ∨
          (result = check_result.unsat ∧
            (Dbl.lt (Dbl.ofInt (sub32 timeout noise)) elapsed ∧
              Dbl.lt elapsed (Dbl.ofInt (add32 timeout noise))))
      then Except.ok qf
      else Except.ok qf

/-! ## `QF_to_expr` -/

/-- The output of `oss << x` for an `int` value: its decimal digits, after a
minus sign when it is negative. -/
def showInt (x : Int) : String := toString x

/-- The function `QF_to_expr`; each `let` is one statement block of the
source, `oss` the text written so far and `first` the flag of the source. -/
def QF_to_expr (qf : QF) (u v : String) : String :=
  let oss0 := ""
  let first0 := true
  let oss1 :=
    if qf.coeff_uu ≠ 0 then
      oss0 ++ (if qf.coeff_uu < 0 then "-" else "")
        ++ (if abs32 qf.coeff_uu ≠ 1 then showInt (abs32 qf.coeff_uu) else "")
        ++ u ++ "^2"
    else oss0
  let first1 := if qf.coeff_uu ≠ 0 then false else first0
  let oss2 :=
    if qf.coeff_uv ≠ 0 then
      oss1 ++ (if first1 = false then (if qf.coeff_uv > 0 then " + " else " - ")
               else (if qf.coeff_uv < 0 then "-" else ""))
        ++ (if abs32 qf.coeff_uv ≠ 1 then showInt (abs32 qf.coeff_uv) else "")
        ++ u ++ v
    else oss1
  let first2 := if qf.coeff_uv ≠ 0 then false else first1
  let oss3 :=
    if qf.coeff_vv ≠ 0 then
      oss2 ++ (if first2 = false then (if qf.coeff_vv > 0 then " + " else " - ")
               else (if qf.coeff_vv < 0 then "-" else ""))
        ++ (if abs32 qf.coeff_vv ≠ 1 then showInt (abs32 qf.coeff_vv) else "")
        ++ v ++ "^2"
    else oss2
  let first3 := if qf.coeff_vv ≠ 0 then false else first2
  let oss4 := if first3 = true then oss3 ++ "0" else oss3
  oss4 ++ " = " ++ showInt qf.rhs

/-- The magnitude and the variable part of one term of the reference
rendering: the magnitude is left out when it is exactly 1. -/
def reference_term (c : Int) (var : String) : String :=
  (if |c| = 1 then "" else toString |c|) ++ var

/-- The terms after the first one of the reference rendering, each after
`" + "` or `" - "` according to its sign. -/
def reference_rest : List (Int × String) → String
  | [] => ""
  | t :: ts => (if t.1 < 0 then " - " else " + ") ++ reference_term t.1 t.2 ++ reference_rest ts

/-- The reference rendering of the specification (section 4.5), written from
its words: the terms with non-zero coefficient in the order `u^2`, `uv`, `v^2`;
the first one after `"-"` when negative; `"0"` when there is none; then
`" = "` and the right-hand side. -/
def render_reference (qf : QF) : String :=
  let terms := [(qf.coeff_uu, "u^2"), (qf.coeff_uv, "uv"), (qf.coeff_vv, "v^2")].filter
    (fun t => decide (t.1 ≠ 0))
  let body :=
    match terms with
    | [] => "0"
    | t :: ts => (if t.1 < 0 then "-" else "") ++ reference_term t.1 t.2 ++ reference_rest ts
  body ++ " = " ++ toString qf.rhs

/-! ## `getPellOP` -/

/-- The struct `PellRes`. -/
structure PellRes where
  expression : String
  qf : QF
  D : Int
  mat : Mat
  timeout : Int
  noise : Int
  deriving DecidableEq, Repr

/-- The conversion `explicit operator bool` of `PellRes`. -/
def PellRes.toBool (r : PellRes) : Bool := decide (r.D ≥ 0)

/-- What the collaborators answer during one call of `getPellOP`: the value of
`rand()`, the raw draws of the matrix generator, the fraction drawn by
`std::uniform_real_distribution<>(noise_lower, noise_upper)`, what the solver
does, and the elapsed time the clock measures. -/
structure World where
  rnd : Nat
  draws : Nat → Nat
  frac : Dbl
  reply : SolverReply
  elapsed : Dbl

/-- The number of binary digits of `n`, with `fuel ≥ n` steps allowed. -/
def bitlenAux : Nat → Nat → Nat
  | 0, _ => 0
  | fuel + 1, n => if n = 0 then 0 else bitlenAux fuel (n / 2) + 1

/-- The number of binary digits of `n`. -/
def bitlen (n : Nat) : Nat := bitlenAux n n

/-- Rounding of a natural number `q + r / 2^s` (with `r < 2^s`, `half = 2^(s-1)`)
to the nearest integer, ties to the even one. -/
def roundHalfEven (q r half : Nat) : Nat :=
  if r < half then q else if half < r then q + 1 else if q % 2 = 0 then q else q + 1

/-- The `double` product `timeout * f` of an `int` and a `double`: the exact
product `t · m · 2^e`, rounded to a mantissa of 53 binary digits (to nearest,
ties to even).  The exponent is not bounded here: a product below the normal
range truncates to `0` and one above it is out of the range of `int` with the
bounded exponent as well, so that `castInt` of the product is not affected. -/
def dmul_int (t : Int) (f : Dbl) : Dbl :=
  let p := t * f.m
  let n := p.natAbs
  let s := bitlen n - 53
  if s = 0 then ⟨p, f.e⟩
  else
    let q1 := roundHalfEven (n / 2 ^ s) (n % 2 ^ s) (2 ^ (s - 1))
    ⟨(if p < 0 then -1 else 1) * (q1 : Int), f.e + s⟩

/-- The integer part of a `double`, towards zero. -/
def Dbl.trunc (x : Dbl) : Int :=
  if 0 ≤ x.e then x.m * 2 ^ x.e.toNat else Int.tdiv x.m (2 ^ (-x.e).toNat)

/-- The conversion `static_cast<int>(x)`: the integer part when it fits in an
`int`, and what the platform gives otherwise. -/
def castInt (P : Platform) (x : Dbl) : Int :=
  if InInt32 x.trunc then x.trunc else P.castBig x

/-- Step 6 of `getPellOP`: the text of the expression. -/
def getPellOP_expression (checked_qf : QF) : String :=
  let oss0 := showInt checked_qf.coeff_uu ++ "*u^2"
  let oss1 :=
    if checked_qf.coeff_uv ≠ 0 then
      oss0 ++ (if checked_qf.coeff_uv > 0 then " + " else " - ")
        ++ showInt (abs32 checked_qf.coeff_uv) ++ "*uv"
    else oss0
  let oss2 :=
    if checked_qf.coeff_vv ≠ 0 then
      oss1 ++ (if checked_qf.coeff_vv > 0 then " + " else " - ")
        ++ showInt (abs32 checked_qf.coeff_vv) ++ "*v^2"
    else oss1
  oss2 ++ " = " ++ showInt checked_qf.rhs

/-- The `try` block of `getPellOP`: the result, or the exception thrown. -/
def getPellOP_try (P : Platform) (w : World) (D_low D_high coeff_range timeout : Int)
    (noise_lower noise_upper : Dbl) : Except Exn PellRes :=
  if D_low > D_high ∨ D_high ≤ 0 then
    Except.error (Exn.invalid_argument "Invalid D range.")
  else if coeff_range ≤ 0 then
    Except.error (Exn.invalid_argument "Coefficient range must be positive.")
  else if timeout ≤ 0 then
    Except.error (Exn.invalid_argument "Timeout must be positive.")
  else if ¬ Dbl.lt noise_lower noise_upper then
    Except.error (Exn.invalid_argument "Noise range invalid: lower must be < upper.")
  else
    let D := generate_PellSeeds P w.rnd D_low D_high
    if D = -1 then Except.error (Exn.runtime_error "Unable to generate valid D.")
    else
      match random_invertible_matrix coeff_range w.draws with
      | Except.error e => Except.error e
      | Except.ok mat =>
        let qf := pell_transformer D mat
        let noise0 := castInt P (dmul_int timeout w.frac)
        let noise := if noise0 < 0 then neg32 noise0 else noise0
        match pell_verifer qf timeout noise w.reply w.elapsed with
        | Except.error e => Except.error e
        | Except.ok checked_qf =>
          Except.ok
            { expression := getPellOP_expression checked_qf
              qf := checked_qf
              D := D
              mat := mat
              timeout := timeout
              noise := noise }

/-- The function `PellOP::getPellOP`: the `try` block, and the `catch` clause
that turns every exception into the error result. -/
def getPellOP (P : Platform) (w : World) (D_low D_high coeff_range timeout : Int)
    (noise_lower noise_upper : Dbl) : PellRes :=
  match getPellOP_try P w D_low D_high coeff_range timeout noise_lower noise_upper with
  | Except.ok ret => ret
  | Except.error e =>
    { expression := "Error: " ++ e.what
      qf := ⟨0, 0, 0, 0⟩
      D := -1
      mat := (0, 0, 0, 0)
      timeout := 0
      noise := 0 }

/-- The identity matrix out of `random_invertible_matrix 10`: the raw draws
`11, 10, 10, 11` are mapped to `1, 0, 0, 1`. -/
def drawsIdentity : Nat → Nat := fun i => if i % 4 = 0 ∨ i % 4 = 3 then 11 else 10

/-- A world for the examples: `rand()` returns `0`, the matrix draws give the
identity, the noise fraction is `1/128`, the solver answers `unknown` after 5 ms. -/
def sampleWorld : World :=
  ⟨0, drawsIdentity, ⟨1, -7⟩, SolverReply.returns check_result.unknown, ⟨5, 0⟩⟩

/-- The `double` nearest to `-0.7`, which is `-6305039478318694 · 2^(-53)`. -/
def minusSevenTenths : Dbl := ⟨-6305039478318694, -53⟩

/-- A world in which the noise fraction drawn is the `double` nearest to `-0.7`. -/
def noiseWorld : World :=
  ⟨0, drawsIdentity, minusSevenTenths, SolverReply.returns check_result.unknown, ⟨5, 0⟩⟩

/-! ## Candidates of `random_invertible_matrix` -/

/-- The candidate quadruple that trial number `trial` of
`random_invertible_matrix` draws. -/
def candidate (range : Int) (draws : Nat → Nat) (trial : Nat) : Mat :=
  (uniform_int (neg32 range) range (draws (4 * trial)),
   uniform_int (neg32 range) range (draws (4 * trial + 1)),
   uniform_int (neg32 range) range (draws (4 * trial + 2)),
   uniform_int (neg32 range) range (draws (4 * trial + 3)))

/-- The exact determinant `a·d − b·c` of a matrix. -/
def det (m : Mat) : Int := m.1 * m.2.2.2 - m.2.1 * m.2.2.1

/-- The determinant as the source computes it, `a * d - b * c` on `int`s. -/
def det32 (m : Mat) : Int := sub32 (mul32 m.1 m.2.2.2) (mul32 m.2.1 m.2.2.1)

/-- Raw draws that give the candidate `(65536, 0, 0, 65536)` at every trial of
`random_invertible_matrix 65536`. -/
def drawsWide : Nat → Nat := fun i => if i % 4 = 0 ∨ i % 4 = 3 then 131072 else 65536

/-! ## The rendering with explicit multiplication -/

/-- The terms after the first one of the rendering with explicit
multiplication: `" + "` or `" - "` by sign, the magnitude, then the variable
part with its `*`. -/
def explicit_rest : List (Int × String) → String
  | [] => ""
  | t :: ts =>
    (if t.1 < 0 then " - " else " + ") ++ toString |t.1| ++ t.2 ++ explicit_rest ts

/-- The rendering with explicit multiplication that `getPellOP` returns, written
from its description: the `u^2` term with its coefficient, always; the `uv` and
`v^2` terms with non-zero coefficient; then `" = "` and the right-hand side. -/
def render_explicit_reference (qf : QF) : String :=
  toString qf.coeff_uu ++ "*u^2"
    ++ explicit_rest ([(qf.coeff_uv, "*uv"), (qf.coeff_vv, "*v^2")].filter
      (fun t => decide (t.1 ≠ 0)))
    ++ " = " ++ toString qf.rhs

/-- Raw draws that give the matrix `(1, 0, 1, 2)` out of
`random_invertible_matrix 10`. -/
def drawsZeroLead : Nat → Nat :=
  fun i => if i % 4 = 0 then 11 else if i % 4 = 1 then 10 else if i % 4 = 2 then 11 else 12

/-- A world in which the matrix drawn is `(1, 0, 1, 2)`. -/
def zeroLeadWorld : World :=
  ⟨0, drawsZeroLead, ⟨1, -7⟩, SolverReply.returns check_result.unknown, ⟨5, 0⟩⟩

/-- A world in which `rand()` returns `46341`. -/
def lateSeedWorld : World :=
  ⟨46341, drawsIdentity, ⟨1, -7⟩, SolverReply.returns check_result.unknown, ⟨5, 0⟩⟩

/-- A world in which the noise fraction drawn is `-2`. -/
def minusTwoWorld : World :=
  ⟨0, drawsIdentity, ⟨-2, 0⟩, SolverReply.returns check_result.unknown, ⟨5, 0⟩⟩

/-! ## A reader of the text of `QF_to_expr` -/

/-- The text of the magnitude that `QF_to_expr` writes for the coefficient `c`:
the statement `if (std::abs(c) != 1) oss << std::abs(c);`. -/
def magnitudeText (c : Int) : String :=
  if abs32 c ≠ 1 then showInt (abs32 c) else ""

/-- The longest run of decimal digits at the start of a text, and what follows
it. -/
def spanDigits : List Char → List Char × List Char
  | [] => ([], [])
  | c :: cs =>
    if c.isDigit = true then (c :: (spanDigits cs).1, (spanDigits cs).2) else ([], c :: cs)

/-- The text `l` without the literal `p` at its start, when it starts with it. -/
def dropLit : List Char → List Char → Option (List Char)
  | [], l => some l
  | _ :: _, [] => none
  | a :: p, b :: l => if a = b then dropLit p l else none

/-- Reads an optional minus sign. -/
def readMinus : List Char → Bool × List Char
  | [] => (false, [])
  | c :: cs => if c = '-' then (true, cs) else (false, c :: cs)

/-- Reads a run of digits followed by the variable part `var`: the digits and
the rest of the text. -/
def readTerm (var : List Char) (l : List Char) : Option (List Char × List Char) :=
  match dropLit var (spanDigits l).2 with
  | some r => some ((spanDigits l).1, r)
  | none => none

/-- Reads a term after the first one, with the variable part `var`: the sign
and the digits of the term when it is there, and the rest of the text. -/
def readLater (var : List Char) (l : List Char) : Option (Bool × List Char) × List Char :=
  match dropLit [' ', '+', ' '] l with
  | some l1 =>
    match readTerm var l1 with
    | some t => (some (false, t.1), t.2)
    | none => (none, l)
  | none =>
    match dropLit [' ', '-', ' '] l with
    | some l1 =>
      match readTerm var l1 with
      | some t => (some (true, t.1), t.2)
      | none => (none, l)
    | none => (none, l)

/-- Reads the three terms of a rendered form: for each of `u^2`, `uv`, `v^2`
the sign and the digits of the term when it is there, and the rest of the
text. -/
def readForm (l : List Char) :
    Option (Bool × List Char) × Option (Bool × List Char) × Option (Bool × List Char)
      × List Char :=
  match readTerm ['u', '^', '2'] (readMinus l).2 with
  | some t =>
    (some ((readMinus l).1, t.1), (readLater ['u', 'v'] t.2).1,
      (readLater ['v', '^', '2'] (readLater ['u', 'v'] t.2).2).1,
      (readLater ['v', '^', '2'] (readLater ['u', 'v'] t.2).2).2)
  | none =>
    match readTerm ['u', 'v'] (readMinus l).2 with
    | some t =>
      (none, some ((readMinus l).1, t.1), (readLater ['v', '^', '2'] t.2).1,
        (readLater ['v', '^', '2'] t.2).2)
    | none =>
      match readTerm ['v', '^', '2'] (readMinus l).2 with
      | some t => (none, none, some ((readMinus l).1, t.1), t.2)
      | none => (none, none, none, l)

/-- What `readForm` finds for the coefficient `c`: nothing when `c = 0`, else
its sign and the text of its magnitude. -/
def termSlot (c : Int) : Option (Bool × List Char) :=
  if c = 0 then none else some (decide (c < 0), (magnitudeText c).data)

/-- What follows the terms in the text of `QF_to_expr`: the literal `0` when
there is no term, then `" = "` and the right-hand side. -/
def formTail (qf : QF) : List Char :=
  (if qf.coeff_uu = 0 ∧ qf.coeff_uv = 0 ∧ qf.coeff_vv = 0 then ['0'] else [])
    ++ ' ' :: '=' :: ' ' :: (showInt qf.rhs).data

/-! ## Lemmas on 32-bit arithmetic -/

theorem wrap32_of_inInt32 {x : Int} (h : InInt32 x) : wrap32 x = x := by
  unfold InInt32 at h
  unfold wrap32
  omega

theorem wrap32_inInt32 (x : Int) : InInt32 (wrap32 x) := by
  unfold InInt32 wrap32
  omega

/-- Without overflow the 32-bit computation is the exact closed form. -/
theorem pell_transformer_exact (D a b c d : Int) (h : NoOverflow D a b c d) :
    pell_transformer D (a, b, c, d) = pell_closed_form D (a, b, c, d) := by
  obtain ⟨h1, h2, h3, h4, h5, h6, h7, h8, h9, h10, h11, h12, h13, h14, h15, h16,
    h17, h18⟩ := h
  simp only [pell_transformer, pell_closed_form, add32, sub32, mul32]
  rw [wrap32_of_inInt32 h1, wrap32_of_inInt32 h2, wrap32_of_inInt32 h3,
    wrap32_of_inInt32 h4, wrap32_of_inInt32 h5, wrap32_of_inInt32 h6,
    wrap32_of_inInt32 h7, wrap32_of_inInt32 h8, wrap32_of_inInt32 h9,
    wrap32_of_inInt32 h10, wrap32_of_inInt32 h11, wrap32_of_inInt32 h12,
    wrap32_of_inInt32 h13, wrap32_of_inInt32 h14, wrap32_of_inInt32 h15,
    wrap32_of_inInt32 h16, wrap32_of_inInt32 h17, wrap32_of_inInt32 h18]
  congr 1 <;> ring

/-! ## Lemmas on `Dbl` -/

theorem Dbl.toRat_eq_mant (x : Dbl) (k : Int) (h : k ≤ x.e) :
    x.toRat = ((x.mant k : Int) : ℚ) * (2 : ℚ) ^ k := by
  unfold Dbl.toRat Dbl.mant
  have h1 : ((x.e - k).toNat : Int) = x.e - k := Int.toNat_of_nonneg (by omega)
  have h2 : (2 : ℚ) ^ x.e = (2 : ℚ) ^ (x.e - k).toNat * (2 : ℚ) ^ k := by
    rw [← zpow_natCast, h1, ← zpow_add₀ (by norm_num : (2 : ℚ) ≠ 0)]
    congr 1
    omega
  rw [h2]
  push_cast
  ring

/-- The comparison on aligned mantissas is the comparison of the values. -/
theorem Dbl.lt_iff_toRat_lt (a b : Dbl) : Dbl.lt a b ↔ a.toRat < b.toRat := by
  unfold Dbl.lt
  rw [Dbl.toRat_eq_mant a (min a.e b.e) (min_le_left _ _),
    Dbl.toRat_eq_mant b (min a.e b.e) (min_le_right _ _)]
  have hpos : (0 : ℚ) < (2 : ℚ) ^ (min a.e b.e) := by positivity
  rw [mul_lt_mul_right hpos]
  exact Int.cast_lt.symm

/-! ## Lemmas on `generate_PellSeeds` -/

theorem isqrtAux_spec (k n : Nat) : ∀ r : Nat, r * r ≤ n → n < (r + 2 ^ k) * (r + 2 ^ k) →
    isqrtAux k n r * isqrtAux k n r ≤ n ∧ n < (isqrtAux k n r + 1) * (isqrtAux k n r + 1) := by
  induction k with
  | zero =>
    intro r h1 h2
    simpa [isqrtAux] using ⟨h1, h2⟩
  | succ k ih =>
    intro r h1 h2
    unfold isqrtAux
    split
    · rename_i hc
      apply ih _ hc
      have hpow : r + 2 ^ k + 2 ^ k = r + 2 ^ (k + 1) := by rw [pow_succ]; ring
      rw [hpow]
      exact h2
    · rename_i hc
      exact ih r h1 (not_le.mp hc)

theorem isqrt_spec (n : Nat) (h : n < 4294967296) :
    isqrt n * isqrt n ≤ n ∧ n < (isqrt n + 1) * (isqrt n + 1) := by
  unfold isqrt
  apply isqrtAux_spec
  · simp
  · norm_num
    exact h

/-- The integer square root of an `int` value is at most `46340`. -/
theorem isqrt_le_of_int (n : Nat) (h : n ≤ 2147483647) : isqrt n ≤ 46340 := by
  have hs := (isqrt_spec n (by omega)).1
  by_contra hc
  have h1 : 46341 ≤ isqrt n := by omega
  have h2 : 46341 * 46341 ≤ isqrt n * isqrt n := Nat.mul_le_mul h1 h1
  omega

theorem floor_sqrt_of_nonneg (P : Platform) (x : Int) (h : 0 ≤ x) :
    floor_sqrt P x = (isqrt x.toNat : Int) := by
  unfold floor_sqrt
  rw [if_neg (not_lt.mpr h)]

/-- On a non-negative `int`, `floor_sqrt` is the greatest `k ≥ 0` with `k² ≤ x`. -/
theorem floor_sqrt_spec (P : Platform) (x : Int) (h0 : 0 ≤ x) (h1 : x ≤ 2147483647) :
    0 ≤ floor_sqrt P x ∧ floor_sqrt P x ≤ 46340 ∧
    floor_sqrt P x * floor_sqrt P x ≤ x ∧
    x < (floor_sqrt P x + 1) * (floor_sqrt P x + 1) := by
  rw [floor_sqrt_of_nonneg P x h0]
  have hx : (x.toNat : Int) = x := Int.toNat_of_nonneg h0
  have hn : x.toNat ≤ 2147483647 := by omega
  have hs := isqrt_spec x.toNat (by omega)
  have hle := isqrt_le_of_int x.toNat hn
  refine ⟨by positivity, by exact_mod_cast hle, ?_, ?_⟩
  · have : ((isqrt x.toNat * isqrt x.toNat : Nat) : Int) ≤ (x.toNat : Int) := by
      exact_mod_cast hs.1
    rw [hx] at this
    push_cast at this
    exact this
  · have : ((x.toNat : Nat) : Int) < (((isqrt x.toNat + 1) * (isqrt x.toNat + 1) : Nat) : Int) := by
      exact_mod_cast hs.2
    rw [hx] at this
    push_cast at this
    exact this

/-- On a non-negative `int`, `ceil_sqrt` is the least `k ≥ 0` with `x ≤ k²`. -/
theorem ceil_sqrt_spec (P : Platform) (x : Int) (h0 : 0 ≤ x) (h1 : x ≤ 2147483647) :
    0 ≤ ceil_sqrt P x ∧ x ≤ ceil_sqrt P x * ceil_sqrt P x ∧
    (∀ k : Int, 0 ≤ k → x ≤ k * k → ceil_sqrt P x ≤ k) := by
  have hx : (x.toNat : Int) = x := Int.toNat_of_nonneg h0
  have hn : x.toNat ≤ 2147483647 := by omega
  have hs := isqrt_spec x.toNat (by omega)
  have hlo : ((isqrt x.toNat : Nat) : Int) * (isqrt x.toNat : Int) ≤ x := by
    have : ((isqrt x.toNat * isqrt x.toNat : Nat) : Int) ≤ (x.toNat : Int) := by
      exact_mod_cast hs.1
    rw [hx] at this
    push_cast at this
    exact this
  have hhi : x < ((isqrt x.toNat : Int) + 1) * ((isqrt x.toNat : Int) + 1) := by
    have : ((x.toNat : Nat) : Int) < (((isqrt x.toNat + 1) * (isqrt x.toNat + 1) : Nat) : Int) := by
      exact_mod_cast hs.2
    rw [hx] at this
    push_cast at this
    exact this
  have hs0 : (0 : Int) ≤ (isqrt x.toNat : Int) := by positivity
  unfold ceil_sqrt
  rw [if_neg (not_lt.mpr h0)]
  by_cases hsq : isqrt x.toNat * isqrt x.toNat = x.toNat
  · rw [if_pos hsq]
    have heq : ((isqrt x.toNat : Nat) : Int) * (isqrt x.toNat : Int) = x := by
      have : ((isqrt x.toNat * isqrt x.toNat : Nat) : Int) = (x.toNat : Int) := by
        exact_mod_cast hsq
      rw [hx] at this
      push_cast at this
      exact this
    refine ⟨hs0, le_of_eq heq.symm, ?_⟩
    intro k hk hxk
    by_contra hc
    have h2 : k + 1 ≤ (isqrt x.toNat : Int) := by omega
    nlinarith
  · rw [if_neg hsq]
    have hne : ((isqrt x.toNat : Nat) : Int) * (isqrt x.toNat : Int) ≠ x := by
      intro heq
      apply hsq
      have : ((isqrt x.toNat * isqrt x.toNat : Nat) : Int) = (x.toNat : Int) := by
        rw [hx]
        push_cast
        exact heq
      exact_mod_cast this
    refine ⟨by omega, le_of_lt hhi, ?_⟩
    intro k hk hxk
    by_contra hc
    have h2 : k ≤ (isqrt x.toNat : Int) := by omega
    have h3 : k * k ≤ (isqrt x.toNat : Int) * (isqrt x.toNat : Int) := by nlinarith
    have h4 : x = (isqrt x.toNat : Int) * (isqrt x.toNat : Int) := le_antisymm (le_trans hxk h3) hlo
    exact hne h4.symm

/-- With `0 ≤ low ≤ high` and `0 < high`, both `int`s: unless the root window
is empty, `generate_PellSeeds` returns the square of a root between
`ceil_sqrt low` and `floor_sqrt high`, and this square lies in `[low, high]`. -/
theorem generate_PellSeeds_root (P : Platform) (rnd : Nat) (low high : Int)
    (h0 : 0 ≤ low) (hlh : low ≤ high) (hh : 0 < high) (hhi : high ≤ 2147483647)
    (hwin : ceil_sqrt P low ≤ floor_sqrt P high) :
    ∃ root : Int, ceil_sqrt P low ≤ root ∧ root ≤ floor_sqrt P high ∧
      generate_PellSeeds P rnd low high = root * root ∧
      low ≤ root * root ∧ root * root ≤ high := by
  obtain ⟨hc0, hc1, -⟩ := ceil_sqrt_spec P low h0 (by omega)
  obtain ⟨hf0, hf1, hf2, -⟩ := floor_sqrt_spec P high (by omega) hhi
  have hguard : ¬ (low > high ∨ high ≤ 0) := by omega
  have hrange : InInt32 (floor_sqrt P high - ceil_sqrt P low) := by
    unfold InInt32; omega
  have hrange1 : InInt32 (floor_sqrt P high - ceil_sqrt P low + 1) := by
    unfold InInt32; omega
  have hr0 : 0 ≤ Int.tmod (rnd : Int) (floor_sqrt P high - ceil_sqrt P low + 1) := by
    rw [Int.tmod_eq_emod (by positivity) (by omega)]
    exact Int.emod_nonneg _ (by omega)
  have hr1 : Int.tmod (rnd : Int) (floor_sqrt P high - ceil_sqrt P low + 1)
      < floor_sqrt P high - ceil_sqrt P low + 1 := by
    rw [Int.tmod_eq_emod (by positivity) (by omega)]
    exact Int.emod_lt_of_pos _ (by omega)
  have hroot : InInt32 (ceil_sqrt P low
      + Int.tmod (rnd : Int) (floor_sqrt P high - ceil_sqrt P low + 1)) := by
    unfold InInt32; omega
  refine ⟨ceil_sqrt P low + Int.tmod (rnd : Int) (floor_sqrt P high - ceil_sqrt P low + 1),
    by omega, by omega, ?_, ?_, ?_⟩
  · unfold generate_PellSeeds
    rw [if_neg hguard]
    simp only [add32, sub32, mul32]
    rw [if_neg (not_lt.mpr hwin), wrap32_of_inInt32 hrange, wrap32_of_inInt32 hrange1,
      wrap32_of_inInt32 hroot]
    apply wrap32_of_inInt32
    unfold InInt32
    constructor
    · nlinarith
    · nlinarith
  · nlinarith
  · nlinarith

/-- A wrapped square is never the sentinel `-1`: squares are `0` or `1` modulo 4. -/
theorem wrap32_sq_ne_neg_one (y : Int) : mul32 y y ≠ -1 := by
  unfold mul32 wrap32
  intro h
  have h4 : (y * y) % 4 = 3 := by omega
  rcases Int.emod_two_eq_zero_or_one y with hy | hy
  · obtain ⟨k, hk⟩ : ∃ k, y = 2 * k := ⟨y / 2, by omega⟩
    have : y * y = 4 * (k * k) := by rw [hk]; ring
    omega
  · obtain ⟨k, hk⟩ : ∃ k, y = 2 * k + 1 := ⟨y / 2, by omega⟩
    have : y * y = 4 * (k * k + k) + 1 := by rw [hk]; ring
    omega

/-- On every input and every platform, the sentinel is returned exactly in the
three cases of the specification (with the roots as the code computes them). -/
theorem generate_PellSeeds_sentinel_iff (P : Platform) (rnd : Nat) (low high : Int) :
    generate_PellSeeds P rnd low high = -1 ↔
      (low > high ∨ high ≤ 0 ∨ ceil_sqrt P low > floor_sqrt P high) := by
  unfold generate_PellSeeds
  by_cases hg : low > high ∨ high ≤ 0
  · rw [if_pos hg]
    constructor
    · intro _
      rcases hg with hg | hg
      · exact Or.inl hg
      · exact Or.inr (Or.inl hg)
    · intro _
      rfl
  · rw [if_neg hg]
    by_cases hw : ceil_sqrt P low > floor_sqrt P high
    · simp only [if_pos hw]
      constructor
      · intro _
        exact Or.inr (Or.inr hw)
      · intro _
        trivial
    · simp only [if_neg hw]
      constructor
      · intro h
        exact absurd h (wrap32_sq_ne_neg_one _)
      · intro h
        rcases h with h | h | h
        · exact absurd (Or.inl h) hg
        · exact absurd (Or.inr h) hg
        · exact absurd h hw

/-- With `0 ≤ low`, the root window is non-empty exactly when `[low, high]`
contains a perfect square. -/
theorem window_iff_square (P : Platform) (low high : Int)
    (h0 : 0 ≤ low) (hlh : low ≤ high) (hhi : high ≤ 2147483647) :
    ceil_sqrt P low ≤ floor_sqrt P high ↔ ∃ k : Int, low ≤ k * k ∧ k * k ≤ high := by
  obtain ⟨hc0, hc1, hc2⟩ := ceil_sqrt_spec P low h0 (by omega)
  obtain ⟨hf0, hf1, hf2, hf3⟩ := floor_sqrt_spec P high (by omega) hhi
  constructor
  · intro h
    exact ⟨ceil_sqrt P low, hc1, by nlinarith⟩
  · rintro ⟨k, hk1, hk2⟩
    have hk : ceil_sqrt P low ≤ |k| := hc2 |k| (abs_nonneg k) (by rw [abs_mul_abs_self]; exact hk1)
    have hk3 : |k| * |k| ≤ high := by rw [abs_mul_abs_self]; exact hk2
    have hk4 : |k| ≤ floor_sqrt P high := by
      by_contra hc
      have : floor_sqrt P high + 1 ≤ |k| := by omega
      nlinarith [abs_nonneg k]
    omega

/-! ## Lemmas on `random_invertible_matrix` -/

theorem uniform_int_mem (lo hi : Int) (raw : Nat) (h : lo ≤ hi) :
    lo ≤ uniform_int lo hi raw ∧ uniform_int lo hi raw ≤ hi := by
  unfold uniform_int
  have h1 : 0 ≤ (raw : Int) % (hi - lo + 1) := Int.emod_nonneg _ (by omega)
  have h2 : (raw : Int) % (hi - lo + 1) < hi - lo + 1 := Int.emod_lt_of_pos _ (by omega)
  constructor <;> omega

/-- The determinant test of the source, done in 32-bit arithmetic, accepts only
matrices whose exact determinant is not zero. -/
theorem det_ne_zero_of_test (a b c d : Int) (h : sub32 (mul32 a d) (mul32 b c) ≠ 0) :
    a * d - b * c ≠ 0 := by
  intro hdet
  apply h
  have heq : a * d = b * c := by omega
  unfold sub32 mul32
  rw [heq, sub_self]
  decide

/-- A matrix returned by the loop is the candidate of some trial, and it passed
the determinant test. -/
theorem random_invertible_matrix_loop_ok (range : Int) (draws : Nat → Nat) :
    ∀ (fuel trial : Nat) (m : Mat),
      random_invertible_matrix_loop range draws fuel trial = Except.ok m →
      ∃ t : Nat, trial ≤ t ∧ t < trial + fuel ∧
        m = (uniform_int (neg32 range) range (draws (4 * t)),
             uniform_int (neg32 range) range (draws (4 * t + 1)),
             uniform_int (neg32 range) range (draws (4 * t + 2)),
             uniform_int (neg32 range) range (draws (4 * t + 3))) ∧
        sub32 (mul32 m.1 m.2.2.2) (mul32 m.2.1 m.2.2.1) ≠ 0 := by
  intro fuel
  induction fuel with
  | zero =>
    intro trial m h
    simp [random_invertible_matrix_loop] at h
  | succ fuel ih =>
    intro trial m h
    unfold random_invertible_matrix_loop at h
    simp only at h
    split at h
    · rename_i hdet
      have hm := (Except.ok.inj h).symm
      subst hm
      exact ⟨trial, le_refl _, by omega, rfl, hdet⟩
    · obtain ⟨t, ht1, ht2, hm, hdet⟩ := ih (trial + 1) m h
      exact ⟨t, by omega, by omega, hm, hdet⟩

theorem neg32_of_pos (range : Int) (h0 : 0 < range) (h1 : range ≤ 2147483647) :
    neg32 range = -range := by
  unfold neg32
  apply wrap32_of_inInt32
  unfold InInt32
  omega

/-- A matrix returned by `random_invertible_matrix` has a non-zero determinant
and entries in `[-range, range]`. -/
theorem random_invertible_matrix_ok (range : Int) (draws : Nat → Nat) (a b c d : Int)
    (h1 : range ≤ 2147483647)
    (h : random_invertible_matrix range draws = Except.ok (a, b, c, d)) :
    0 < range ∧ a * d - b * c ≠ 0 ∧
    (-range ≤ a ∧ a ≤ range) ∧ (-range ≤ b ∧ b ≤ range) ∧
    (-range ≤ c ∧ c ≤ range) ∧ (-range ≤ d ∧ d ≤ range) := by
  unfold random_invertible_matrix at h
  by_cases h0 : range ≤ 0
  · rw [if_pos h0] at h
    exact absurd h (by simp)
  · rw [if_neg h0] at h
    obtain ⟨t, -, -, hm, hdet⟩ := random_invertible_matrix_loop_ok range draws 100 0 _ h
    have hpos : 0 < range := by omega
    rw [neg32_of_pos range hpos h1] at hm
    have hle : -range ≤ range := by omega
    simp only [Prod.mk.injEq] at hm
    obtain ⟨ha, hb, hc, hd⟩ := hm
    refine ⟨hpos, det_ne_zero_of_test a b c d hdet, ?_, ?_, ?_, ?_⟩
    · rw [ha]; exact uniform_int_mem _ _ _ hle
    · rw [hb]; exact uniform_int_mem _ _ _ hle
    · rw [hc]; exact uniform_int_mem _ _ _ hle
    · rw [hd]; exact uniform_int_mem _ _ _ hle

/-! ## Lemmas on `QF_to_expr` -/

theorem abs32_eq_abs (c : Int) (h0 : -2147483647 ≤ c) (h1 : c ≤ 2147483647) :
    abs32 c = |c| := by
  unfold abs32 neg32
  by_cases hc : c < 0
  · rw [if_pos hc, abs_of_neg hc]
    apply wrap32_of_inInt32
    unfold InInt32
    omega
  · rw [if_neg hc, abs_of_nonneg (not_lt.mp hc)]

theorem sign_cases (c : Int) :
    (c < 0 ∧ c ≠ 0 ∧ ¬ 0 < c) ∨ c = 0 ∨ (0 < c ∧ c ≠ 0 ∧ ¬ c < 0) := by
  omega

theorem QF_to_expr_eq_reference (qf : QF)
    (huu : -2147483647 ≤ qf.coeff_uu ∧ qf.coeff_uu ≤ 2147483647)
    (huv : -2147483647 ≤ qf.coeff_uv ∧ qf.coeff_uv ≤ 2147483647)
    (hvv : -2147483647 ≤ qf.coeff_vv ∧ qf.coeff_vv ≤ 2147483647) :
    QF_to_expr qf "u" "v" = render_reference qf := by
  obtain ⟨c1, c2, c3, r⟩ := qf
  simp only at huu huv hvv
  unfold QF_to_expr render_reference
  simp only [abs32_eq_abs c1 huu.1 huu.2, abs32_eq_abs c2 huv.1 huv.2,
    abs32_eq_abs c3 hvv.1 hvv.2, showInt, reference_term, reference_rest]
  rcases sign_cases c1 with ⟨h1, h1a, h1b⟩ | h1 | ⟨h1, h1a, h1b⟩ <;>
  rcases sign_cases c2 with ⟨h2, h2a, h2b⟩ | h2 | ⟨h2, h2a, h2b⟩ <;>
  rcases sign_cases c3 with ⟨h3, h3a, h3b⟩ | h3 | ⟨h3, h3a, h3b⟩ <;>
  (apply String.ext
   simp [*, List.filter, reference_rest, reference_term, String.data_append])

/-! ## Lemmas on the noise computation of `getPellOP` -/

/-- A positive `n` has `b + 1` binary digits with `2^b ≤ n`. -/
theorem bitlenAux_spec : ∀ (fuel n : Nat), n ≤ fuel → 0 < n →
    ∃ b : Nat, bitlenAux fuel n = b + 1 ∧ 2 ^ b ≤ n := by
  intro fuel
  induction fuel with
  | zero =>
    intro n h1 h2
    omega
  | succ fuel ih =>
    intro n h1 h2
    unfold bitlenAux
    rw [if_neg (by omega)]
    by_cases hn : n / 2 = 0
    · refine ⟨0, ?_, by omega⟩
      rw [hn]
      cases fuel with
      | zero => rfl
      | succ k => simp [bitlenAux]
    · obtain ⟨b, hb1, hb2⟩ := ih (n / 2) (by omega) (by omega)
      refine ⟨b + 1, by rw [hb1], ?_⟩
      rw [pow_succ]
      omega

/-- When more than 53 digits are there, the 53 leading ones are at least `2^52`. -/
theorem leading_digits_ge (n : Nat) (h : bitlen n - 53 ≠ 0) :
    2 ^ 52 ≤ n / 2 ^ (bitlen n - 53) := by
  have hn : 0 < n := by
    by_contra hc
    have h0 : n = 0 := by omega
    apply h
    rw [h0]
    rfl
  obtain ⟨b, hb1, hb2⟩ := bitlenAux_spec n n (le_refl n) hn
  have hb : bitlen n = b + 1 := hb1
  rw [hb] at h ⊢
  rw [Nat.le_div_iff_mul_le (by positivity), ← pow_add]
  have : 52 + (b + 1 - 53) = b := by omega
  rw [this]
  exact hb2

theorem roundHalfEven_cases (q r half : Nat) :
    roundHalfEven q r half = q ∨ (roundHalfEven q r half = q + 1 ∧ half ≤ r) := by
  unfold roundHalfEven
  split
  · exact Or.inl rfl
  · rename_i h1
    split
    · exact Or.inr ⟨rfl, by omega⟩
    · split
      · exact Or.inl rfl
      · exact Or.inr ⟨rfl, by omega⟩

/-- The magnitude of the integer part of `m · 2^e`. -/
theorem natAbs_trunc (x : Dbl) :
    x.trunc.natAbs =
      if 0 ≤ x.e then x.m.natAbs * 2 ^ x.e.toNat else x.m.natAbs / 2 ^ (-x.e).toNat := by
  unfold Dbl.trunc
  by_cases h : 0 ≤ x.e
  · rw [if_pos h, if_pos h, Int.natAbs_mul, Int.natAbs_pow]
    rfl
  · rw [if_neg h, if_neg h, Int.natAbs_tdiv, Int.natAbs_pow]
    rfl

theorem two_zpow_toNat (e : Int) (h : 0 ≤ e) : ((2 : ℚ) ^ e.toNat) = (2 : ℚ) ^ e := by
  conv_rhs => rw [← Int.toNat_of_nonneg h]
  rw [zpow_natCast]

theorem two_zpow_neg_toNat (e : Int) (h : e < 0) :
    ((2 : ℚ) ^ (-e).toNat)⁻¹ = (2 : ℚ) ^ e := by
  have h1 : ((-e).toNat : Int) = -e := Int.toNat_of_nonneg (by omega)
  have h2 : e = -((-e).toNat : Int) := by omega
  conv_rhs => rw [h2]
  rw [zpow_neg, zpow_natCast]

/-- The integer part of a non-negative `M · 2^E`, as a rational, is at most
`M · 2^E`. -/
theorem truncMag_le (M : Nat) (E : Int) :
    (((if 0 ≤ E then M * 2 ^ E.toNat else M / 2 ^ (-E).toNat : Nat)) : ℚ)
      ≤ (M : ℚ) * (2 : ℚ) ^ E := by
  by_cases h : 0 ≤ E
  · rw [if_pos h]
    push_cast
    rw [two_zpow_toNat E h]
  · rw [if_neg h]
    have hE : E < 0 := not_le.mp h
    calc ((M / 2 ^ (-E).toNat : Nat) : ℚ) ≤ (M : ℚ) / ((2 ^ (-E).toNat : Nat) : ℚ) :=
          Nat.cast_div_le
      _ = (M : ℚ) * (2 : ℚ) ^ E := by
          rw [div_eq_mul_inv]
          push_cast
          rw [two_zpow_neg_toNat E hE]

theorem roundHalfEven_le (q r half : Nat) : roundHalfEven q r half ≤ q + 1 := by
  rcases roundHalfEven_cases q r half with h | ⟨h, -⟩ <;> omega

theorem natAbs_sign_mul (p : Int) (q : Nat) :
    ((if p < 0 then -1 else 1) * (q : Int)).natAbs = q := by
  split <;> simp

/-- The integer part of the rounded product `t * f` exceeds the exact product
by less than one, unless the product is at least `2^52`. -/
theorem trunc_dmul_int (t : Int) (f : Dbl) :
    (((dmul_int t f).trunc.natAbs : Nat) : ℚ)
        < ((t * f.m).natAbs : ℚ) * (2 : ℚ) ^ f.e + 1 ∨
      (2 : ℚ) ^ 52 ≤ ((t * f.m).natAbs : ℚ) * (2 : ℚ) ^ f.e := by
  rw [natAbs_trunc]
  unfold dmul_int
  simp only
  by_cases hs : bitlen (t * f.m).natAbs - 53 = 0
  · left
    rw [if_pos hs]
    have h := truncMag_le (t * f.m).natAbs f.e
    simp only at h ⊢
    linarith
  · rw [if_neg hs]
    simp only [natAbs_sign_mul]
    generalize hn : (t * f.m).natAbs = n at hs ⊢
    generalize hsdef : bitlen n - 53 = s at hs ⊢
    have hq : 2 ^ 52 ≤ n / 2 ^ s := by
      rw [← hsdef]
      exact leading_digits_ge n (by rw [hsdef]; exact hs)
    have hq1 := roundHalfEven_le (n / 2 ^ s) (n % 2 ^ s) (2 ^ (s - 1))
    generalize roundHalfEven (n / 2 ^ s) (n % 2 ^ s) (2 ^ (s - 1)) = q1 at hq1 ⊢
    have hpos : (0 : ℚ) < (2 : ℚ) ^ f.e := by positivity
    have hposE : (0 : ℚ) < (2 : ℚ) ^ (f.e + (s : Int)) := by positivity
    have hsplit : (2 : ℚ) ^ (f.e + (s : Int)) = (2 : ℚ) ^ f.e * (2 : ℚ) ^ s := by
      rw [zpow_add₀ (by norm_num : (2 : ℚ) ≠ 0), zpow_natCast]
    have hdiv : ((n / 2 ^ s : Nat) : ℚ) * (2 : ℚ) ^ s ≤ (n : ℚ) := by
      have h1 : n / 2 ^ s * 2 ^ s ≤ n := Nat.div_mul_le_self n (2 ^ s)
      have h2 : ((n / 2 ^ s * 2 ^ s : Nat) : ℚ) ≤ (n : ℚ) := by exact_mod_cast h1
      push_cast at h2
      exact h2
    have hV : ((n / 2 ^ s : Nat) : ℚ) * (2 : ℚ) ^ (f.e + (s : Int))
        ≤ (n : ℚ) * (2 : ℚ) ^ f.e := by
      rw [hsplit]
      calc ((n / 2 ^ s : Nat) : ℚ) * ((2 : ℚ) ^ f.e * (2 : ℚ) ^ s)
          = (((n / 2 ^ s : Nat) : ℚ) * (2 : ℚ) ^ s) * (2 : ℚ) ^ f.e := by ring
        _ ≤ (n : ℚ) * (2 : ℚ) ^ f.e := mul_le_mul_of_nonneg_right hdiv (le_of_lt hpos)
    by_cases hE : 0 ≤ f.e + (s : Int)
    · right
      have hone : (1 : ℚ) ≤ (2 : ℚ) ^ (f.e + (s : Int)) :=
        one_le_zpow₀ (by norm_num) hE
      have hq' : ((2 : ℚ) ^ 52) ≤ ((n / 2 ^ s : Nat) : ℚ) := by exact_mod_cast hq
      calc (2 : ℚ) ^ 52 = (2 : ℚ) ^ 52 * 1 := by ring
        _ ≤ ((n / 2 ^ s : Nat) : ℚ) * (2 : ℚ) ^ (f.e + (s : Int)) :=
            mul_le_mul hq' hone (by norm_num) (by positivity)
        _ ≤ (n : ℚ) * (2 : ℚ) ^ f.e := hV
    · left
      have hlt : (2 : ℚ) ^ (f.e + (s : Int)) < 1 :=
        zpow_lt_one_of_neg₀ (by norm_num) (not_le.mp hE)
      have h := truncMag_le q1 (f.e + (s : Int))
      have hq1' : (q1 : ℚ) ≤ ((n / 2 ^ s : Nat) : ℚ) + 1 := by exact_mod_cast hq1
      have h3 : (q1 : ℚ) * (2 : ℚ) ^ (f.e + (s : Int))
          ≤ (((n / 2 ^ s : Nat) : ℚ) + 1) * (2 : ℚ) ^ (f.e + (s : Int)) :=
        mul_le_mul_of_nonneg_right hq1' (le_of_lt hposE)
      simp only at h ⊢
      linarith

theorem castInt_inInt32 (P : Platform) (x : Dbl) : InInt32 (castInt P x) := by
  unfold castInt
  split
  · rename_i h
    exact h
  · exact P.castBig_int x

/-- The exact product behind `dmul_int`, in absolute value. -/
theorem abs_exact_product (t : Int) (f : Dbl) :
    |(t : ℚ) * f.toRat| = ((t * f.m).natAbs : ℚ) * (2 : ℚ) ^ f.e := by
  unfold Dbl.toRat
  have hpos : (0 : ℚ) < (2 : ℚ) ^ f.e := by positivity
  rw [← mul_assoc, abs_mul, abs_of_pos hpos]
  congr 1
  rw [Nat.cast_natAbs]
  push_cast
  rfl

/-- The noise that `getPellOP` passes on, when it is not negative, exceeds the
exact product `|timeout · frac|` by less than one. -/
theorem noise_lt_product_add_one (P : Platform) (t : Int) (f : Dbl)
    (h : 0 ≤ (if castInt P (dmul_int t f) < 0 then neg32 (castInt P (dmul_int t f))
      else castInt P (dmul_int t f))) :
    (((if castInt P (dmul_int t f) < 0 then neg32 (castInt P (dmul_int t f))
      else castInt P (dmul_int t f) : Int)) : ℚ) < |(t : ℚ) * f.toRat| + 1 := by
  rw [abs_exact_product]
  have hcast := castInt_inInt32 P (dmul_int t f)
  have hL := trunc_dmul_int t f
  generalize hV : ((t * f.m).natAbs : ℚ) * (2 : ℚ) ^ f.e = V at hL ⊢
  generalize hx : dmul_int t f = x at h hcast hL ⊢
  generalize hnoise : (if castInt P x < 0 then neg32 (castInt P x) else castInt P x) = noise
    at h ⊢
  -- the noise is an `int`
  have hn32 : noise ≤ 2147483647 := by
    rw [← hnoise]
    split
    · exact (wrap32_inInt32 _).2
    · exact hcast.2
  have hnq : (noise : ℚ) ≤ 2147483647 := by exact_mod_cast hn32
  rcases hL with hL | hL
  · by_cases hin : InInt32 x.trunc
    · -- the integer part fits: the noise is its magnitude
      have hc : castInt P x = x.trunc := by
        unfold castInt
        rw [if_pos hin]
      have hmag : noise = (x.trunc.natAbs : Int) := by
        rw [← hnoise, hc]
        rw [← hnoise, hc] at h
        unfold InInt32 at hin
        unfold neg32 wrap32 at h ⊢
        split at h
        · split
          · omega
          · omega
        · split
          · omega
          · omega
      rw [hmag, Int.cast_natCast]
      exact hL
    · -- the integer part does not fit: its magnitude exceeds every `int`
      have hbig : (2147483648 : Int) ≤ (x.trunc.natAbs : Int) := by
        unfold InInt32 at hin
        omega
      have hbigq : (2147483648 : ℚ) ≤ ((x.trunc.natAbs : Nat) : ℚ) := by exact_mod_cast hbig
      linarith
  · have h52 : (2 : ℚ) ^ 52 = 4503599627370496 := by norm_num
    linarith

theorem pell_verifer_ok (qf q : QF) (timeout noise : Int) (reply : SolverReply) (elapsed : Dbl)
    (h : pell_verifer qf timeout noise reply elapsed = Except.ok q) :
    0 < timeout ∧ 0 ≤ noise := by
  unfold pell_verifer at h
  split at h
  · exact absurd h (by simp)
  rename_i h1
  split at h
  · exact absurd h (by simp)
  rename_i h2
  omega

/-! ## Lemmas on `getPellOP` -/

/-- The error result of the `catch` clause for the exception `e`. -/
theorem getPellOP_of_error (P : Platform) (w : World) (D_low D_high coeff_range timeout : Int)
    (noise_lower noise_upper : Dbl) (e : Exn)
    (h : getPellOP_try P w D_low D_high coeff_range timeout noise_lower noise_upper
      = Except.error e) :
    getPellOP P w D_low D_high coeff_range timeout noise_lower noise_upper
      = ⟨"Error: " ++ e.what, ⟨0, 0, 0, 0⟩, -1, (0, 0, 0, 0), 0, 0⟩ := by
  unfold getPellOP
  rw [h]

theorem getPellOP_of_ok (P : Platform) (w : World) (D_low D_high coeff_range timeout : Int)
    (noise_lower noise_upper : Dbl) (ret : PellRes)
    (h : getPellOP_try P w D_low D_high coeff_range timeout noise_lower noise_upper
      = Except.ok ret) :
    getPellOP P w D_low D_high coeff_range timeout noise_lower noise_upper = ret := by
  unfold getPellOP
  rw [h]

/-- What a completed `try` block tells about the call. -/
theorem getPellOP_try_ok (P : Platform) (w : World) (D_low D_high coeff_range timeout : Int)
    (noise_lower noise_upper : Dbl) (ret : PellRes)
    (h : getPellOP_try P w D_low D_high coeff_range timeout noise_lower noise_upper
      = Except.ok ret) :
    D_low ≤ D_high ∧ 0 < D_high ∧ 0 < coeff_range ∧ 0 < timeout ∧
    Dbl.lt noise_lower noise_upper ∧
    ret.D = generate_PellSeeds P w.rnd D_low D_high ∧ ret.D ≠ -1 ∧
    random_invertible_matrix coeff_range w.draws = Except.ok ret.mat ∧
    ret.noise = (if castInt P (dmul_int timeout w.frac) < 0
      then neg32 (castInt P (dmul_int timeout w.frac))
      else castInt P (dmul_int timeout w.frac)) ∧
    pell_verifer (pell_transformer ret.D ret.mat) timeout ret.noise w.reply w.elapsed
      = Except.ok ret.qf ∧
    ret.timeout = timeout ∧ ret.expression = getPellOP_expression ret.qf := by
  unfold getPellOP_try at h
  split at h
  · exact absurd h (by simp)
  rename_i h1
  split at h
  · exact absurd h (by simp)
  rename_i h2
  split at h
  · exact absurd h (by simp)
  rename_i h3
  split at h
  · exact absurd h (by simp)
  rename_i h4
  simp only at h
  split at h
  · exact absurd h (by simp)
  rename_i h5
  split at h
  · exact absurd h (by simp)
  rename_i mat hmat
  split at h
  · exact absurd h (by simp)
  rename_i checked hver
  have hret := (Except.ok.inj h).symm
  subst hret
  refine ⟨by omega, by omega, by omega, by omega, not_not.mp h4, rfl, h5, hmat, rfl, hver,
    rfl, rfl⟩

/-- A result other than the sentinel comes from a completed `try` block. -/
theorem getPellOP_success (P : Platform) (w : World) (D_low D_high coeff_range timeout : Int)
    (noise_lower noise_upper : Dbl)
    (h : (getPellOP P w D_low D_high coeff_range timeout noise_lower noise_upper).D ≠ -1) :
    getPellOP_try P w D_low D_high coeff_range timeout noise_lower noise_upper
      = Except.ok (getPellOP P w D_low D_high coeff_range timeout noise_lower noise_upper) := by
  cases htry : getPellOP_try P w D_low D_high coeff_range timeout noise_lower noise_upper with
  | error e =>
    rw [getPellOP_of_error P w D_low D_high coeff_range timeout noise_lower noise_upper e htry]
      at h
    exact absurd rfl h
  | ok ret =>
    rw [getPellOP_of_ok P w D_low D_high coeff_range timeout noise_lower noise_upper ret htry]

/-! ## Lemmas on the trials of `random_invertible_matrix` -/

theorem random_invertible_matrix_loop_succ (range : Int) (draws : Nat → Nat)
    (fuel trial : Nat) :
    random_invertible_matrix_loop range draws (fuel + 1) trial =
      if det32 (candidate range draws trial) ≠ 0 then Except.ok (candidate range draws trial)
      else random_invertible_matrix_loop range draws fuel (trial + 1) := by
  rfl

/-- The loop returns the first candidate that passes the 32-bit test. -/
theorem random_invertible_matrix_loop_ok_iff (range : Int) (draws : Nat → Nat) :
    ∀ (fuel trial : Nat) (m : Mat),
      random_invertible_matrix_loop range draws fuel trial = Except.ok m ↔
      ∃ t : Nat, trial ≤ t ∧ t < trial + fuel ∧ candidate range draws t = m ∧
        det32 (candidate range draws t) ≠ 0 ∧
        ∀ s : Nat, trial ≤ s → s < t → det32 (candidate range draws s) = 0 := by
  intro fuel
  induction fuel with
  | zero =>
    intro trial m
    constructor
    · intro h
      simp [random_invertible_matrix_loop] at h
    · rintro ⟨t, h1, h2, -⟩
      omega
  | succ fuel ih =>
    intro trial m
    rw [random_invertible_matrix_loop_succ]
    by_cases hdet : det32 (candidate range draws trial) ≠ 0
    · rw [if_pos hdet]
      constructor
      · intro h
        have hm := Except.ok.inj h
        exact ⟨trial, le_refl _, by omega, hm, hdet, fun s h1 h2 => by omega⟩
      · rintro ⟨t, h1, h2, h3, h4, h5⟩
        by_cases ht : t = trial
        · rw [← h3, ht]
        · exact absurd (h5 trial (le_refl _) (by omega)) hdet
    · rw [if_neg hdet, ih]
      have hz : det32 (candidate range draws trial) = 0 := not_not.mp hdet
      constructor
      · rintro ⟨t, h1, h2, h3, h4, h5⟩
        refine ⟨t, by omega, by omega, h3, h4, ?_⟩
        intro s hs1 hs2
        by_cases hs : s = trial
        · rw [hs]; exact hz
        · exact h5 s (by omega) hs2
      · rintro ⟨t, h1, h2, h3, h4, h5⟩
        have ht : t ≠ trial := by
          intro h
          rw [h] at h4
          exact h4 hz
        exact ⟨t, by omega, by omega, h3, h4, fun s hs1 hs2 => h5 s (by omega) hs2⟩

/-- The loop fails exactly when every candidate fails the 32-bit test, and then
with the construction failure. -/
theorem random_invertible_matrix_loop_error_iff (range : Int) (draws : Nat → Nat) :
    ∀ (fuel trial : Nat) (e : Exn),
      random_invertible_matrix_loop range draws fuel trial = Except.error e ↔
      (e = Exn.runtime_error "Failed to generate invertible matrix." ∧
        ∀ t : Nat, trial ≤ t → t < trial + fuel → det32 (candidate range draws t) = 0) := by
  intro fuel
  induction fuel with
  | zero =>
    intro trial e
    constructor
    · intro h
      have he := Except.error.inj h
      exact ⟨he.symm, fun t h1 h2 => by omega⟩
    · rintro ⟨he, -⟩
      rw [he]
      rfl
  | succ fuel ih =>
    intro trial e
    rw [random_invertible_matrix_loop_succ]
    by_cases hdet : det32 (candidate range draws trial) ≠ 0
    · rw [if_pos hdet]
      constructor
      · intro h
        exact absurd h (by simp)
      · rintro ⟨-, h⟩
        exact absurd (h trial (le_refl _) (by omega)) hdet
    · rw [if_neg hdet, ih]
      have hz : det32 (candidate range draws trial) = 0 := not_not.mp hdet
      constructor
      · rintro ⟨he, h⟩
        refine ⟨he, ?_⟩
        intro t h1 h2
        by_cases ht : t = trial
        · rw [ht]; exact hz
        · exact h t (by omega) (by omega)
      · rintro ⟨he, h⟩
        exact ⟨he, fun t h1 h2 => h t (by omega) (by omega)⟩

/-- The entries of a candidate lie in `[-range, range]`. -/
theorem candidate_mem (range : Int) (draws : Nat → Nat) (t : Nat)
    (h0 : 0 < range) (h1 : range ≤ 2147483647) :
    (-range ≤ (candidate range draws t).1 ∧ (candidate range draws t).1 ≤ range) ∧
    (-range ≤ (candidate range draws t).2.1 ∧ (candidate range draws t).2.1 ≤ range) ∧
    (-range ≤ (candidate range draws t).2.2.1 ∧ (candidate range draws t).2.2.1 ≤ range) ∧
    (-range ≤ (candidate range draws t).2.2.2 ∧ (candidate range draws t).2.2.2 ≤ range) := by
  unfold candidate
  rw [neg32_of_pos range h0 h1]
  have hle : -range ≤ range := by omega
  exact ⟨uniform_int_mem _ _ _ hle, uniform_int_mem _ _ _ hle, uniform_int_mem _ _ _ hle,
    uniform_int_mem _ _ _ hle⟩

/-- A product of two numbers bounded by `r ≤ 46340` is an `int`. -/
theorem mul_inInt32_of_le (x y r : Int) (hr : r ≤ 46340)
    (hx : -r ≤ x ∧ x ≤ r) (hy : -r ≤ y ∧ y ≤ r) :
    -2147395600 ≤ x * y ∧ x * y ≤ 2147395600 := by
  have h0 : 0 ≤ r := by omega
  constructor
  · nlinarith [mul_nonneg (by omega : (0 : Int) ≤ r + x) (by omega : (0 : Int) ≤ r + y),
      mul_nonneg (by omega : (0 : Int) ≤ r - x) (by omega : (0 : Int) ≤ r - y),
      mul_nonneg h0 (by omega : (0 : Int) ≤ 46340 - r)]
  · nlinarith [mul_nonneg (by omega : (0 : Int) ≤ r + x) (by omega : (0 : Int) ≤ r - y),
      mul_nonneg (by omega : (0 : Int) ≤ r - x) (by omega : (0 : Int) ≤ r + y),
      mul_nonneg h0 (by omega : (0 : Int) ≤ 46340 - r)]

/-- For entries bounded by `46340` the 32-bit test is the exact test. -/
theorem det32_eq_zero_iff (m : Mat) (r : Int) (hr : r ≤ 46340)
    (ha : -r ≤ m.1 ∧ m.1 ≤ r) (hb : -r ≤ m.2.1 ∧ m.2.1 ≤ r)
    (hc : -r ≤ m.2.2.1 ∧ m.2.2.1 ≤ r) (hd : -r ≤ m.2.2.2 ∧ m.2.2.2 ≤ r) :
    det32 m = 0 ↔ det m = 0 := by
  have h1 := mul_inInt32_of_le m.1 m.2.2.2 r hr ha hd
  have h2 := mul_inInt32_of_le m.2.1 m.2.2.1 r hr hb hc
  have hw1 : wrap32 (m.1 * m.2.2.2) = m.1 * m.2.2.2 :=
    wrap32_of_inInt32 ⟨by omega, by omega⟩
  have hw2 : wrap32 (m.2.1 * m.2.2.1) = m.2.1 * m.2.2.1 :=
    wrap32_of_inInt32 ⟨by omega, by omega⟩
  unfold det32 det sub32 mul32
  rw [hw1, hw2]
  unfold wrap32
  omega

/-! ## Lemmas on the expression of `getPellOP` -/

theorem getPellOP_expression_eq_reference (qf : QF)
    (huv : -2147483647 ≤ qf.coeff_uv ∧ qf.coeff_uv ≤ 2147483647)
    (hvv : -2147483647 ≤ qf.coeff_vv ∧ qf.coeff_vv ≤ 2147483647) :
    getPellOP_expression qf = render_explicit_reference qf := by
  obtain ⟨c1, c2, c3, r⟩ := qf
  simp only at huv hvv
  unfold getPellOP_expression render_explicit_reference
  simp only [abs32_eq_abs c2 huv.1 huv.2, abs32_eq_abs c3 hvv.1 hvv.2, showInt]
  rcases sign_cases c2 with ⟨h2, h2a, h2b⟩ | h2 | ⟨h2, h2a, h2b⟩ <;>
  rcases sign_cases c3 with ⟨h3, h3a, h3b⟩ | h3 | ⟨h3, h3a, h3b⟩ <;>
  (apply String.ext
   simp [*, List.filter, explicit_rest, String.data_append])

/-- The validation of `getPellOP` in terms of the values of the noise bounds. -/
theorem not_lt_iff_toRat (a b : Dbl) : ¬ Dbl.lt a b ↔ b.toRat ≤ a.toRat := by
  rw [Dbl.lt_iff_toRat_lt, not_lt]

/-- When `pell_verifer` returns, it returns its input form. -/
theorem pell_verifer_ok_eq (qf q : QF) (timeout noise : Int) (reply : SolverReply)
    (elapsed : Dbl) (h : pell_verifer qf timeout noise reply elapsed = Except.ok q) :
    q = qf := by
  obtain ⟨ht, hn⟩ := pell_verifer_ok qf q timeout noise reply elapsed h
  unfold pell_verifer at h
  rw [if_neg (by omega), if_neg (by omega)] at h
  cases reply with
  | throws => exact (Except.ok.inj h).symm
  | returns result =>
    simp only at h
    split at h <;> exact (Except.ok.inj h).symm

/-- The fields of a result other than the sentinel fit together. -/
theorem getPellOP_consistent (P : Platform) (w : World)
    (D_low D_high coeff_range timeout : Int) (noise_lower noise_upper : Dbl)
    (hcr : coeff_range ≤ 2147483647)
    (hs : (getPellOP P w D_low D_high coeff_range timeout noise_lower noise_upper).D ≠ -1) :
    (getPellOP P w D_low D_high coeff_range timeout noise_lower noise_upper).qf
      = pell_transformer
          (getPellOP P w D_low D_high coeff_range timeout noise_lower noise_upper).D
          (getPellOP P w D_low D_high coeff_range timeout noise_lower noise_upper).mat ∧
    det (getPellOP P w D_low D_high coeff_range timeout noise_lower noise_upper).mat ≠ 0 ∧
    (-coeff_range ≤ (getPellOP P w D_low D_high coeff_range timeout noise_lower noise_upper).mat.1
      ∧ (getPellOP P w D_low D_high coeff_range timeout noise_lower noise_upper).mat.1
        ≤ coeff_range) ∧
    (-coeff_range
        ≤ (getPellOP P w D_low D_high coeff_range timeout noise_lower noise_upper).mat.2.1
      ∧ (getPellOP P w D_low D_high coeff_range timeout noise_lower noise_upper).mat.2.1
        ≤ coeff_range) ∧
    (-coeff_range
        ≤ (getPellOP P w D_low D_high coeff_range timeout noise_lower noise_upper).mat.2.2.1
      ∧ (getPellOP P w D_low D_high coeff_range timeout noise_lower noise_upper).mat.2.2.1
        ≤ coeff_range) ∧
    (-coeff_range
        ≤ (getPellOP P w D_low D_high coeff_range timeout noise_lower noise_upper).mat.2.2.2
      ∧ (getPellOP P w D_low D_high coeff_range timeout noise_lower noise_upper).mat.2.2.2
        ≤ coeff_range) ∧
    (getPellOP P w D_low D_high coeff_range timeout noise_lower noise_upper).timeout
      = timeout := by
  have htry := getPellOP_success P w D_low D_high coeff_range timeout noise_lower noise_upper hs
  obtain ⟨-, -, -, -, -, -, -, hmat, -, hver, htime, -⟩ :=
    getPellOP_try_ok P w D_low D_high coeff_range timeout noise_lower noise_upper _ htry
  generalize (getPellOP P w D_low D_high coeff_range timeout noise_lower noise_upper) = ret
    at hmat hver htime ⊢
  obtain ⟨-, hdet, ha, hb, hc, hd⟩ :=
    random_invertible_matrix_ok coeff_range w.draws ret.mat.1 ret.mat.2.1 ret.mat.2.2.1
      ret.mat.2.2.2 hcr hmat
  exact ⟨pell_verifer_ok_eq _ _ _ _ _ _ hver, hdet, ha, hb, hc, hd, htime⟩

/-! ## Lemmas on the bounds of `pell_transformer` -/

/-- A product of two bounded numbers is bounded by the product of the bounds. -/
theorem mul_bound (x y X Y : Int) (hx : -X ≤ x ∧ x ≤ X) (hy : -Y ≤ y ∧ y ≤ Y) :
    -(X * Y) ≤ x * y ∧ x * y ≤ X * Y := by
  have hX : |x| ≤ X := abs_le.mpr hx
  have hY : |y| ≤ Y := abs_le.mpr hy
  have h : |x * y| ≤ X * Y := by
    rw [abs_mul]
    exact mul_le_mul hX hY (abs_nonneg y) (le_trans (abs_nonneg x) hX)
  exact abs_le.mp h

/-- Within the bounds `0 ≤ D ≤ Dmax` and `|entries| ≤ r`, for `r ≥ 1` with
`2·(Dmax + 1)·r² ≤ 2³¹ − 1` and `4·r⁴ ≤ 2³¹ − 1`, nothing overflows. -/
theorem noOverflow_of_bounds (D Dmax r a b c d : Int)
    (hD : 0 ≤ D ∧ D ≤ Dmax) (hr : 1 ≤ r)
    (ha : -r ≤ a ∧ a ≤ r) (hb : -r ≤ b ∧ b ≤ r) (hc : -r ≤ c ∧ c ≤ r) (hd : -r ≤ d ∧ d ≤ r)
    (h1 : 2 * (Dmax + 1) * r ^ 2 ≤ 2147483647) (h2 : 4 * r ^ 4 ≤ 2147483647) :
    NoOverflow D a b c d := by
  have hDm : -Dmax ≤ D ∧ D ≤ Dmax := ⟨by omega, hD.2⟩
  have hDmax : 0 ≤ Dmax := by omega
  -- the bounds of the products, in terms of `R = r·r` and `K = Dmax·(r·r)`
  obtain ⟨R, hR⟩ : ∃ R : Int, R = r * r := ⟨_, rfl⟩
  obtain ⟨K, hK⟩ : ∃ K : Int, K = Dmax * (r * r) := ⟨_, rfl⟩
  obtain ⟨L, hL⟩ : ∃ L : Int, L = Dmax * r := ⟨_, rfl⟩
  have hrR : r ≤ R := by rw [hR]; nlinarith
  have hLK : L ≤ K := by
    rw [hL, hK]
    exact mul_le_mul_of_nonneg_left (by rw [← hR]; exact hrR) hDmax
  have hL0 : 0 ≤ L := by rw [hL]; exact mul_nonneg hDmax (by omega)
  have hDL : Dmax ≤ L := by
    rw [hL]
    nlinarith
  have hsum : 2 * K + 2 * R ≤ 2147483647 := by
    have : 2 * (Dmax + 1) * r ^ 2 = 2 * K + 2 * R := by rw [hK, hR]; ring
    omega
  have hRR : 4 * (R * R) ≤ 2147483647 := by
    have : 4 * r ^ 4 = 4 * (R * R) := by rw [hR]; ring
    omega
  have had := mul_bound a d r r ha hd
  have hbc := mul_bound b c r r hb hc
  have hdd := mul_bound d d r r hd hd
  have hbb := mul_bound b b r r hb hb
  have hDc := mul_bound D c Dmax r hDm hc
  have hDa := mul_bound D a Dmax r hDm ha
  rw [← hR] at had hbc hdd hbb
  rw [← hL] at hDc hDa
  have hDcc := mul_bound (D * c) c L r hDc hc
  have hDaa := mul_bound (D * a) a L r hDa ha
  have hLr : L * r = K := by rw [hL, hK]; ring
  rw [hLr] at hDcc hDaa
  have h2d : -(2 * r) ≤ -2 * d ∧ -2 * d ≤ 2 * r := by omega
  have h2db := mul_bound (-2 * d) b (2 * r) r h2d hb
  have h2rr : 2 * r * r = 2 * R := by rw [hR]; ring
  rw [h2rr] at h2db
  have h2D : -(2 * Dmax) ≤ 2 * D ∧ 2 * D ≤ 2 * Dmax := by omega
  have h2Dc := mul_bound (2 * D) c (2 * Dmax) r h2D hc
  have h2L : 2 * Dmax * r = 2 * L := by rw [hL]; ring
  rw [h2L] at h2Dc
  have h2Dca := mul_bound (2 * D * c) a (2 * L) r h2Dc ha
  have h2K : 2 * L * r = 2 * K := by rw [← hLr]; ring
  rw [h2K] at h2Dca
  have hdelta : -(2 * R) ≤ a * d - b * c ∧ a * d - b * c ≤ 2 * R := by omega
  have hdd2 := mul_bound (a * d - b * c) (a * d - b * c) (2 * R) (2 * R) hdelta hdelta
  have h4 : 2 * R * (2 * R) = 4 * (R * R) := by ring
  rw [h4] at hdd2
  have hR0 : 0 ≤ R := by omega
  have hK0 : 0 ≤ K := by omega
  unfold NoOverflow InInt32
  refine ⟨?_, ?_, ?_, ?_, ?_, ?_, ?_, ?_, ?_, ?_, ?_, ?_, ?_, ?_, ?_, ?_, ?_, ?_⟩ <;>
    constructor <;> omega

/-! ## Lemmas on the arguments of the probe -/

/-- When the integer part of the product fits in an `int` and is not `INT_MIN`,
the noise that `getPellOP` computes is not negative. -/
theorem noise_nonneg_of_fits (P : Platform) (t : Int) (f : Dbl)
    (hfit : InInt32 (dmul_int t f).trunc) (hne : (dmul_int t f).trunc ≠ -2147483648) :
    0 ≤ (if castInt P (dmul_int t f) < 0 then neg32 (castInt P (dmul_int t f))
      else castInt P (dmul_int t f)) := by
  have hc : castInt P (dmul_int t f) = (dmul_int t f).trunc := by
    unfold castInt
    rw [if_pos hfit]
  rw [hc]
  unfold InInt32 at hfit
  unfold neg32 wrap32
  split <;> omega

/-! ## Lemmas on the decimal text of a number -/

theorem toDigitsCore_eq_append : ∀ (fuel n : Nat) (ds : List Char), n < fuel →
    Nat.toDigitsCore 10 fuel n ds = Nat.toDigits 10 n ++ ds := by
  intro fuel
  induction fuel using Nat.strong_induction_on with
  | _ fuel ih =>
    intro n ds hn
    cases fuel with
    | zero => omega
    | succ fuel =>
      unfold Nat.toDigits
      simp only [Nat.toDigitsCore]
      by_cases h0 : n / 10 = 0
      · simp [h0]
      · simp only [h0, if_false]
        rw [ih fuel (by omega) (n / 10) _ (by omega), ih n (by omega) (n / 10) _ (by omega)]
        simp

theorem toDigits_of_lt (n : Nat) (h : n < 10) : Nat.toDigits 10 n = [Nat.digitChar n] := by
  unfold Nat.toDigits
  simp only [Nat.toDigitsCore]
  have h0 : n / 10 = 0 := by omega
  have h1 : n % 10 = n := by omega
  simp [h0, h1]

theorem toDigits_of_ge (n : Nat) (h : 10 ≤ n) :
    Nat.toDigits 10 n = Nat.toDigits 10 (n / 10) ++ [Nat.digitChar (n % 10)] := by
  conv_lhs => unfold Nat.toDigits
  simp only [Nat.toDigitsCore]
  have h0 : ¬ n / 10 = 0 := by omega
  simp only [h0, if_false]
  exact toDigitsCore_eq_append n (n / 10) _ (by omega)

theorem digitChar_isDigit (d : Nat) (h : d < 10) : (Nat.digitChar d).isDigit = true := by
  interval_cases d <;> decide

theorem digitChar_inj (d e : Nat) (hd : d < 10) (he : e < 10)
    (h : Nat.digitChar d = Nat.digitChar e) : d = e := by
  interval_cases d <;> interval_cases e <;> first | rfl | (exfalso; revert h; decide)

theorem toDigits_ne_nil (n : Nat) : Nat.toDigits 10 n ≠ [] := by
  by_cases h : n < 10
  · rw [toDigits_of_lt n h]; simp
  · rw [toDigits_of_ge n (by omega)]; simp

theorem toDigits_isDigit : ∀ (n : Nat), ∀ c ∈ Nat.toDigits 10 n, c.isDigit = true := by
  intro n
  induction n using Nat.strong_induction_on with
  | _ n ih =>
    intro c hc
    by_cases h : n < 10
    · rw [toDigits_of_lt n h] at hc
      simp only [List.mem_singleton] at hc
      rw [hc]
      exact digitChar_isDigit n h
    · rw [toDigits_of_ge n (by omega)] at hc
      rcases List.mem_append.mp hc with hc | hc
      · exact ih (n / 10) (by omega) c hc
      · simp only [List.mem_singleton] at hc
        rw [hc]
        exact digitChar_isDigit _ (by omega)

theorem toDigits_inj : ∀ (n m : Nat), Nat.toDigits 10 n = Nat.toDigits 10 m → n = m := by
  intro n
  induction n using Nat.strong_induction_on with
  | _ n ih =>
    intro m h
    by_cases hn : n < 10
    · by_cases hm : m < 10
      · rw [toDigits_of_lt n hn, toDigits_of_lt m hm] at h
        exact digitChar_inj n m hn hm (List.singleton_inj.mp h)
      · exfalso
        rw [toDigits_of_lt n hn, toDigits_of_ge m (by omega)] at h
        have hl := congrArg List.length h
        have hne := toDigits_ne_nil (m / 10)
        have : 0 < (Nat.toDigits 10 (m / 10)).length := List.length_pos.mpr hne
        rw [List.length_append] at hl
        simp only [List.length_singleton] at hl
        omega
    · by_cases hm : m < 10
      · exfalso
        rw [toDigits_of_ge n (by omega), toDigits_of_lt m hm] at h
        have hl := congrArg List.length h
        have hne := toDigits_ne_nil (n / 10)
        have : 0 < (Nat.toDigits 10 (n / 10)).length := List.length_pos.mpr hne
        rw [List.length_append] at hl
        simp only [List.length_singleton] at hl
        omega
      · rw [toDigits_of_ge n (by omega), toDigits_of_ge m (by omega)] at h
        have h1 := List.append_inj' h rfl
        have h2 := ih (n / 10) (by omega) (m / 10) h1.1
        have h3 := digitChar_inj (n % 10) (m % 10) (by omega) (by omega)
          (List.singleton_inj.mp h1.2)
        omega

theorem int_toString_data (c : Int) :
    (toString c).data =
      if c < 0 then '-' :: Nat.toDigits 10 c.natAbs else Nat.toDigits 10 c.natAbs := by
  cases c with
  | ofNat m =>
    have h : ¬ (Int.ofNat m < 0) := by simp
    rw [if_neg h]
    rfl
  | negSucc m =>
    have h : Int.negSucc m < 0 := Int.negSucc_lt_zero m
    rw [if_pos h]
    rfl

/-- The decimal text of a natural number determines it. -/
theorem nat_toString_inj (n m : Nat) (h : toString n = toString m) : n = m := by
  apply toDigits_inj
  exact congrArg String.data h

theorem nat_toString_data (n : Nat) : (toString n).data = Nat.toDigits 10 n := rfl

/-- The decimal text of an integer determines it. -/
theorem int_toString_inj (a b : Int) (h : (toString a).data = (toString b).data) : a = b := by
  rw [int_toString_data, int_toString_data] at h
  have hda := toDigits_isDigit a.natAbs
  have hdb := toDigits_isDigit b.natAbs
  have hna := toDigits_ne_nil a.natAbs
  have hnb := toDigits_ne_nil b.natAbs
  by_cases ha : a < 0
  · by_cases hb : b < 0
    · rw [if_pos ha, if_pos hb] at h
      have := toDigits_inj _ _ (List.cons.inj h).2
      omega
    · exfalso
      rw [if_pos ha, if_neg hb] at h
      cases hl : Nat.toDigits 10 b.natAbs with
      | nil => exact hnb hl
      | cons x xs =>
        rw [hl] at h
        have hx : x = '-' := (List.cons.inj h).1.symm
        have := hdb x (by rw [hl]; exact List.mem_cons_self x xs)
        rw [hx] at this
        exact absurd this (by decide)
  · by_cases hb : b < 0
    · exfalso
      rw [if_neg ha, if_pos hb] at h
      cases hl : Nat.toDigits 10 a.natAbs with
      | nil => exact hna hl
      | cons x xs =>
        rw [hl] at h
        have hx : x = '-' := (List.cons.inj h).1
        have := hda x (by rw [hl]; exact List.mem_cons_self x xs)
        rw [hx] at this
        exact absurd this (by decide)
    · rw [if_neg ha, if_neg hb] at h
      have := toDigits_inj _ _ h
      omega

/-! ## Lemmas on the reader of the text of `QF_to_expr` -/

theorem magnitudeText_eq (c : Int) (h0 : -2147483647 ≤ c) (h1 : c ≤ 2147483647) :
    magnitudeText c = if c.natAbs = 1 then "" else toString c.natAbs := by
  unfold magnitudeText showInt
  rw [abs32_eq_abs c h0 h1]
  have habs : |c| = ((c.natAbs : Nat) : Int) := (Int.natCast_natAbs c).symm
  by_cases h : c.natAbs = 1
  · rw [if_pos h, if_neg (by rw [habs, h]; simp)]
  · rw [if_neg h, if_pos (by rw [habs]; omega), habs]
    rfl

/-- The magnitude that `QF_to_expr` writes consists of decimal digits. -/
theorem magnitudeText_digits (c : Int) (h0 : -2147483647 ≤ c) (h1 : c ≤ 2147483647) :
    ∀ x ∈ (magnitudeText c).data, x.isDigit = true := by
  rw [magnitudeText_eq c h0 h1]
  intro x hx
  by_cases h : c.natAbs = 1
  · rw [if_pos h] at hx
    simp at hx
  · rw [if_neg h] at hx
    exact toDigits_isDigit c.natAbs x hx

/-- The sign and the text of the magnitude determine a coefficient. -/
theorem termSlot_inj (c e : Int) (hc0 : -2147483647 ≤ c) (hc1 : c ≤ 2147483647)
    (he0 : -2147483647 ≤ e) (he1 : e ≤ 2147483647) (h : termSlot c = termSlot e) : c = e := by
  unfold termSlot at h
  by_cases hc : c = 0
  · by_cases he : e = 0
    · rw [hc, he]
    · rw [if_pos hc, if_neg he] at h
      exact absurd h (by simp)
  · by_cases he : e = 0
    · rw [if_neg hc, if_pos he] at h
      exact absurd h (by simp)
    · rw [if_neg hc, if_neg he] at h
      have h2 := Option.some.inj h
      have hsign : decide (c < 0) = decide (e < 0) := (Prod.mk.inj h2).1
      have hmag : (magnitudeText c).data = (magnitudeText e).data := (Prod.mk.inj h2).2
      have hs : c < 0 ↔ e < 0 := by
        constructor
        · intro hlt
          have : decide (e < 0) = true := by rw [← hsign]; exact decide_eq_true hlt
          exact of_decide_eq_true this
        · intro hlt
          have : decide (c < 0) = true := by rw [hsign]; exact decide_eq_true hlt
          exact of_decide_eq_true this
      rw [magnitudeText_eq c hc0 hc1, magnitudeText_eq e he0 he1] at hmag
      have hnat : c.natAbs = e.natAbs := by
        by_cases h1c : c.natAbs = 1
        · by_cases h1e : e.natAbs = 1
          · rw [h1c, h1e]
          · exfalso
            rw [if_pos h1c, if_neg h1e] at hmag
            exact toDigits_ne_nil e.natAbs hmag.symm
        · by_cases h1e : e.natAbs = 1
          · exfalso
            rw [if_neg h1c, if_pos h1e] at hmag
            exact toDigits_ne_nil c.natAbs hmag
          · rw [if_neg h1c, if_neg h1e] at hmag
            exact toDigits_inj _ _ hmag
      omega

theorem spanDigits_digits_cons (ds : List Char) (x : Char) (r : List Char)
    (h : ∀ c ∈ ds, c.isDigit = true) (hx : x.isDigit = false) :
    spanDigits (ds ++ x :: r) = (ds, x :: r) := by
  induction ds with
  | nil =>
    simp [spanDigits, hx]
  | cons d ds ih =>
    have hd : d.isDigit = true := h d (List.mem_cons_self d ds)
    have ih2 := ih (fun c hc => h c (List.mem_cons_of_mem d hc))
    simp [spanDigits, hd, ih2]

theorem readMinus_digits_cons (ds : List Char) (x : Char) (r : List Char)
    (h : ∀ c ∈ ds, c.isDigit = true) (hx : x ≠ '-') :
    readMinus (ds ++ x :: r) = (false, ds ++ x :: r) := by
  cases ds with
  | nil =>
    simp [readMinus, hx]
  | cons d ds =>
    have hd : d.isDigit = true := h d (List.mem_cons_self d ds)
    have hne : d ≠ '-' := by
      intro hd2
      rw [hd2] at hd
      exact absurd hd (by decide)
    simp [readMinus, hne]

/-- The facts on a run of digits `ds` that the reader uses. -/
theorem reader_facts (ds : List Char) (h : ∀ c ∈ ds, c.isDigit = true) :
    (∀ r, spanDigits (ds ++ 'u' :: r) = (ds, 'u' :: r)) ∧
    (∀ r, spanDigits (ds ++ 'v' :: r) = (ds, 'v' :: r)) ∧
    (∀ r, readMinus (ds ++ 'u' :: r) = (false, ds ++ 'u' :: r)) ∧
    (∀ r, readMinus (ds ++ 'v' :: r) = (false, ds ++ 'v' :: r)) :=
  ⟨fun r => spanDigits_digits_cons ds 'u' r h (by decide),
   fun r => spanDigits_digits_cons ds 'v' r h (by decide),
   fun r => readMinus_digits_cons ds 'u' r h (by decide),
   fun r => readMinus_digits_cons ds 'v' r h (by decide)⟩

theorem readMinus_minus (l : List Char) : readMinus ('-' :: l) = (true, l) := by
  simp [readMinus]

theorem readMinus_zero (l : List Char) : readMinus ('0' :: l) = (false, '0' :: l) := by
  simp [readMinus]

theorem spanDigits_zero (r : List Char) : spanDigits ('0' :: ' ' :: r) = (['0'], ' ' :: r) := by
  simp [spanDigits]

/-- The reader finds, in the text of a form, the sign and the magnitude of every
term and the text of the right-hand side. -/
theorem readForm_QF_to_expr (qf : QF)
    (huu : -2147483647 ≤ qf.coeff_uu ∧ qf.coeff_uu ≤ 2147483647)
    (huv : -2147483647 ≤ qf.coeff_uv ∧ qf.coeff_uv ≤ 2147483647)
    (hvv : -2147483647 ≤ qf.coeff_vv ∧ qf.coeff_vv ≤ 2147483647) :
    readForm (QF_to_expr qf "u" "v").data
      = (termSlot qf.coeff_uu, termSlot qf.coeff_uv, termSlot qf.coeff_vv, formTail qf) := by
  obtain ⟨c1, c2, c3, r⟩ := qf
  simp only at huu huv hvv
  have e1 : (if abs32 c1 ≠ 1 then showInt (abs32 c1) else "") = magnitudeText c1 := rfl
  have e2 : (if abs32 c2 ≠ 1 then showInt (abs32 c2) else "") = magnitudeText c2 := rfl
  have e3 : (if abs32 c3 ≠ 1 then showInt (abs32 c3) else "") = magnitudeText c3 := rfl
  unfold QF_to_expr termSlot formTail
  simp only [e1, e2, e3]
  obtain ⟨a1, a2, a3, a4⟩ := reader_facts _ (magnitudeText_digits c1 huu.1 huu.2)
  obtain ⟨b1, b2, b3, b4⟩ := reader_facts _ (magnitudeText_digits c2 huv.1 huv.2)
  obtain ⟨d1, d2, d3, d4⟩ := reader_facts _ (magnitudeText_digits c3 hvv.1 hvv.2)
  generalize magnitudeText c1 = m1 at a1 a2 a3 a4 ⊢
  generalize magnitudeText c2 = m2 at b1 b2 b3 b4 ⊢
  generalize magnitudeText c3 = m3 at d1 d2 d3 d4 ⊢
  generalize showInt r = rs
  rcases sign_cases c1 with ⟨h1, h1a, h1b⟩ | h1 | ⟨h1, h1a, h1b⟩ <;>
  rcases sign_cases c2 with ⟨h2, h2a, h2b⟩ | h2 | ⟨h2, h2a, h2b⟩ <;>
  rcases sign_cases c3 with ⟨h3, h3a, h3b⟩ | h3 | ⟨h3, h3a, h3b⟩ <;>
  simp [*, String.data_append, readForm, readLater, readTerm, dropLit, readMinus_minus,
    readMinus_zero, spanDigits_zero]

/-! ## Claims on `pell_transformer` -/

/-- C1 (as stated, refuted): on the `int` inputs `D = 4`, `(0, 1, 65536, 0)`
(a perfect square and a matrix of determinant `-65536`, as `getPellOP` with
`coeff_range = 65536` can pass them) the function returns the form
`(0, 0, 1, 0)`, whereas the closed form is `(-17179869184, 0, 1, 4294967296)`,
which no `int` field can hold. -/
theorem C1_closed_form_overflow_counterexample :
    InInt32 4 ∧ InInt32 0 ∧ InInt32 1 ∧ InInt32 65536 ∧
    pell_transformer 4 (0, 1, 65536, 0) = ⟨0, 0, 1, 0⟩ ∧
    pell_closed_form 4 (0, 1, 65536, 0) = ⟨-17179869184, 0, 1, 4294967296⟩ ∧
    ¬ InInt32 (-17179869184) ∧ ¬ InInt32 4294967296 ∧
    pell_transformer 4 (0, 1, 65536, 0) ≠ pell_closed_form 4 (0, 1, 65536, 0) := by
  decide

/-- C1 (amended): for every `D` and every matrix `(a, b, c, d)` on which no
intermediate product, sum or difference of the computation leaves the signed
32-bit range, `pell_transformer` returns exactly `coeff_uu = d² − D·c²`,
`coeff_uv = −2·d·b + 2·D·c·a`, `coeff_vv = b² − D·a²`, `rhs = (a·d − b·c)²`. -/
theorem C1_pell_transformer_closed_form (D a b c d : Int)
    (h : NoOverflow D a b c d) :
    (pell_transformer D (a, b, c, d)).coeff_uu = d ^ 2 - D * c ^ 2 ∧
    (pell_transformer D (a, b, c, d)).coeff_uv = -2 * d * b + 2 * D * c * a ∧
    (pell_transformer D (a, b, c, d)).coeff_vv = b ^ 2 - D * a ^ 2 ∧
    (pell_transformer D (a, b, c, d)).rhs = (a * d - b * c) ^ 2 := by
  rw [pell_transformer_exact D a b c d h]
  exact ⟨rfl, rfl, rfl, rfl⟩

/-- Witness of C1: `D = 4` and the matrix `(1, 2, 3, 5)`. -/
theorem C1_pell_transformer_closed_form_witness :
    NoOverflow 4 1 2 3 5 ∧
    (pell_transformer 4 (1, 2, 3, 5)).coeff_uu = 5 ^ 2 - 4 * 3 ^ 2 ∧
    (pell_transformer 4 (1, 2, 3, 5)).coeff_uv = -2 * 5 * 2 + 2 * 4 * 3 * 1 ∧
    (pell_transformer 4 (1, 2, 3, 5)).coeff_vv = 2 ^ 2 - 4 * 1 ^ 2 ∧
    (pell_transformer 4 (1, 2, 3, 5)).rhs = (1 * 5 - 2 * 3) ^ 2 :=
  ⟨by decide, C1_pell_transformer_closed_form 4 1 2 3 5 (by decide)⟩

/-- C2 (as stated, refuted): on the `int` inputs `D = 4`, `(0, 1, 65536, 0)`,
whose determinant is `-65536`, the returned form is `(0, 0, 1, 0)`.  At
`(x, y) = (0, 1)`, that is `(u, v) = (1, 0)`, its left-hand side is `0` and not
`(a·d − b·c)²·(x² − D·y²)`; and `(x, y) = (1, 0)` solves `x² − 4·y² = 1` while
its image `(u, v) = (0, 65536)` does not solve the returned equation. -/
theorem C2_substitution_overflow_counterexample :
    (0 : Int) * 0 - 1 * 65536 ≠ 0 ∧
    (pell_transformer 4 (0, 1, 65536, 0)).coeff_uu * (0 * 0 + 1 * 1) ^ 2
      + (pell_transformer 4 (0, 1, 65536, 0)).coeff_uv * (0 * 0 + 1 * 1) * (65536 * 0 + 0 * 1)
      + (pell_transformer 4 (0, 1, 65536, 0)).coeff_vv * (65536 * 0 + 0 * 1) ^ 2
      ≠ (0 * 0 - 1 * 65536) ^ 2 * (0 ^ 2 - 4 * 1 ^ 2) ∧
    ¬ ((pell_transformer 4 (0, 1, 65536, 0)).coeff_uu * (0 * 1 + 1 * 0) ^ 2
      + (pell_transformer 4 (0, 1, 65536, 0)).coeff_uv * (0 * 1 + 1 * 0) * (65536 * 1 + 0 * 0)
      + (pell_transformer 4 (0, 1, 65536, 0)).coeff_vv * (65536 * 1 + 0 * 0) ^ 2
      = (pell_transformer 4 (0, 1, 65536, 0)).rhs ↔ (1 : Int) ^ 2 - 4 * 0 ^ 2 = 1) := by
  decide

/-- C2 (amended): for every `D` and every matrix `(a, b, c, d)` with
`a·d − b·c ≠ 0` on which no intermediate value of the computation leaves the
signed 32-bit range, and for all integers `x`, `y` with
`(u, v) = (a·x + b·y, c·x + d·y)`, the returned form satisfies
`coeff_uu·u² + coeff_uv·u·v + coeff_vv·v² = (a·d − b·c)²·(x² − D·y²)`, and
`(u, v)` solves the returned equation if and only if `x² − D·y² = 1`. -/
theorem C2_pell_transformer_substitution (D a b c d : Int)
    (h : NoOverflow D a b c d) (hdet : a * d - b * c ≠ 0) (x y : Int) :
    (pell_transformer D (a, b, c, d)).coeff_uu * (a * x + b * y) ^ 2
      + (pell_transformer D (a, b, c, d)).coeff_uv * (a * x + b * y) * (c * x + d * y)
      + (pell_transformer D (a, b, c, d)).coeff_vv * (c * x + d * y) ^ 2
      = (a * d - b * c) ^ 2 * (x ^ 2 - D * y ^ 2) ∧
    ((pell_transformer D (a, b, c, d)).coeff_uu * (a * x + b * y) ^ 2
      + (pell_transformer D (a, b, c, d)).coeff_uv * (a * x + b * y) * (c * x + d * y)
      + (pell_transformer D (a, b, c, d)).coeff_vv * (c * x + d * y) ^ 2
      = (pell_transformer D (a, b, c, d)).rhs ↔ x ^ 2 - D * y ^ 2 = 1) := by
  rw [pell_transformer_exact D a b c d h]
  simp only [pell_closed_form]
  have key : (d ^ 2 - D * c ^ 2) * (a * x + b * y) ^ 2
      + (-2 * d * b + 2 * D * c * a) * (a * x + b * y) * (c * x + d * y)
      + (b ^ 2 - D * a ^ 2) * (c * x + d * y) ^ 2
      = (a * d - b * c) ^ 2 * (x ^ 2 - D * y ^ 2) := by ring
  refine ⟨key, ?_⟩
  rw [key]
  have hsq : (a * d - b * c) ^ 2 ≠ 0 := pow_ne_zero 2 hdet
  constructor
  · intro heq
    have h1 : (a * d - b * c) ^ 2 * (x ^ 2 - D * y ^ 2) = (a * d - b * c) ^ 2 * 1 := by
      rw [heq, mul_one]
    exact mul_left_cancel₀ hsq h1
  · intro heq
    rw [heq, mul_one]

/-- Witness of C2: `D = 4`, the matrix `(1, 2, 3, 5)` of determinant `-1`, and
the canonical solution `(x, y) = (1, 0)`. -/
theorem C2_pell_transformer_substitution_witness :
    NoOverflow 4 1 2 3 5 ∧ (1 : Int) * 5 - 2 * 3 ≠ 0 ∧
    ((pell_transformer 4 (1, 2, 3, 5)).coeff_uu * (1 * 1 + 2 * 0) ^ 2
      + (pell_transformer 4 (1, 2, 3, 5)).coeff_uv * (1 * 1 + 2 * 0) * (3 * 1 + 5 * 0)
      + (pell_transformer 4 (1, 2, 3, 5)).coeff_vv * (3 * 1 + 5 * 0) ^ 2
      = (1 * 5 - 2 * 3) ^ 2 * (1 ^ 2 - 4 * 0 ^ 2) ∧
    ((pell_transformer 4 (1, 2, 3, 5)).coeff_uu * (1 * 1 + 2 * 0) ^ 2
      + (pell_transformer 4 (1, 2, 3, 5)).coeff_uv * (1 * 1 + 2 * 0) * (3 * 1 + 5 * 0)
      + (pell_transformer 4 (1, 2, 3, 5)).coeff_vv * (3 * 1 + 5 * 0) ^ 2
      = (pell_transformer 4 (1, 2, 3, 5)).rhs ↔ (1 : Int) ^ 2 - 4 * 0 ^ 2 = 1)) :=
  ⟨by decide, by decide, C2_pell_transformer_substitution 4 1 2 3 5 (by decide) (by decide) 1 0⟩

/-! ## Claims on `generate_PellSeeds` and `random_invertible_matrix` -/

/-- C3 (the code at the failing input): the window `[-5, 9]` contains the
perfect squares `0, 1, 4, 9`, and with `rand() = 4` the function returns `16` on
x86-64, a value outside the window.  The square root of the negative bound is a
NaN, whose conversion to `int` gives `INT_MIN` there. -/
theorem C3_generate_PellSeeds_negative_low :
    ((-5 : Int) ≤ 0 * 0 ∧ (0 : Int) * 0 ≤ 9) ∧
    ceil_sqrt x86_64 (-5) = -2147483648 ∧
    generate_PellSeeds x86_64 4 (-5) 9 = 16 ∧
    ¬ (generate_PellSeeds x86_64 4 (-5) 9 ≤ 9) := by
  decide

/-- C4: for every `int` `range > 0` and every sequence of raw draws on which
`random_invertible_matrix range` returns `(a, b, c, d)`, the determinant
`a·d − b·c` is not zero and every entry lies in `[-range, range]`; for
`range = 1` the entries are in `{-1, 0, 1}`. -/
theorem C4_random_invertible_matrix_invertible (range : Int) (draws : Nat → Nat)
    (a b c d : Int) (h0 : 0 < range) (h1 : range ≤ 2147483647)
    (h : random_invertible_matrix range draws = Except.ok (a, b, c, d)) :
    a * d - b * c ≠ 0 ∧
    (-range ≤ a ∧ a ≤ range) ∧ (-range ≤ b ∧ b ≤ range) ∧
    (-range ≤ c ∧ c ≤ range) ∧ (-range ≤ d ∧ d ≤ range) ∧
    (range = 1 →
      (a = -1 ∨ a = 0 ∨ a = 1) ∧ (b = -1 ∨ b = 0 ∨ b = 1) ∧
      (c = -1 ∨ c = 0 ∨ c = 1) ∧ (d = -1 ∨ d = 0 ∨ d = 1)) := by
  obtain ⟨-, hdet, ha, hb, hc, hd⟩ := random_invertible_matrix_ok range draws a b c d h1 h
  refine ⟨hdet, ha, hb, hc, hd, ?_⟩
  intro hr
  subst hr
  refine ⟨?_, ?_, ?_, ?_⟩ <;> omega

/-- Witness of C4: with `range = 1` the raw draws `2, 1, 1, 2` give the
identity matrix `(1, 0, 0, 1)` at the first trial. -/
theorem C4_random_invertible_matrix_invertible_witness :
    (0 : Int) < 1 ∧ (1 : Int) ≤ 2147483647 ∧
    random_invertible_matrix 1 (fun i => if i % 4 = 0 ∨ i % 4 = 3 then 2 else 1)
      = Except.ok (1, 0, 0, 1) ∧
    ((1 : Int) * 1 - 0 * 0 ≠ 0 ∧
    (-1 ≤ (1 : Int) ∧ (1 : Int) ≤ 1) ∧ (-1 ≤ (0 : Int) ∧ (0 : Int) ≤ 1) ∧
    (-1 ≤ (0 : Int) ∧ (0 : Int) ≤ 1) ∧ (-1 ≤ (1 : Int) ∧ (1 : Int) ≤ 1) ∧
    ((1 : Int) = 1 →
      ((1 : Int) = -1 ∨ (1 : Int) = 0 ∨ (1 : Int) = 1) ∧
      ((0 : Int) = -1 ∨ (0 : Int) = 0 ∨ (0 : Int) = 1) ∧
      ((0 : Int) = -1 ∨ (0 : Int) = 0 ∨ (0 : Int) = 1) ∧
      ((1 : Int) = -1 ∨ (1 : Int) = 0 ∨ (1 : Int) = 1))) :=
  ⟨by decide, by decide, by rfl,
    C4_random_invertible_matrix_invertible 1 (fun i => if i % 4 = 0 ∨ i % 4 = 3 then 2 else 1)
      1 0 0 1 (by decide) (by decide) (by rfl)⟩

/-! ## Claims on `pell_verifer` -/

/-- C5: for every form, every `timeout > 0`, every `noise ≥ 0`, every reply of
the solver (satisfiable, unsatisfiable, unknown, or an exception) and every
elapsed time, `pell_verifer` raises nothing and returns its input form. -/
theorem C5_pell_verifer_returns_input (qf : QF) (timeout noise : Int) (reply : SolverReply)
    (elapsed : Dbl) (ht : 0 < timeout) (hn : 0 ≤ noise) :
    pell_verifer qf timeout noise reply elapsed = Except.ok qf := by
  unfold pell_verifer
  rw [if_neg (not_le.mpr ht), if_neg (not_lt.mpr hn)]
  cases reply with
  | throws => rfl
  | returns result =>
    simp only
    split <;> rfl

/-- Witness of C5: the solver reports `unknown` on the form `(0, 5, -3, 7)`. -/
theorem C5_pell_verifer_returns_input_witness :
    (0 : Int) < 1000 ∧ (0 : Int) ≤ 100 ∧
    pell_verifer ⟨0, 5, -3, 7⟩ 1000 100 (SolverReply.returns check_result.unknown) ⟨950, 0⟩
      = Except.ok ⟨0, 5, -3, 7⟩ :=
  ⟨by decide, by decide,
    C5_pell_verifer_returns_input ⟨0, 5, -3, 7⟩ 1000 100
      (SolverReply.returns check_result.unknown) ⟨950, 0⟩ (by decide) (by decide)⟩

/-! ## Claims on `QF_to_expr` -/

/-- C6 (as stated, refuted): for the form `(-2147483648, 0, 0, 0)` the magnitude
of the first coefficient does not fit in an `int`; `std::abs` gives the
coefficient back and the text has two minus signs, whereas the reference
rendering is `-2147483648u^2 = 0`. -/
theorem C6_QF_to_expr_int_min_counterexample :
    InInt32 (-2147483648) ∧
    QF_to_expr ⟨-2147483648, 0, 0, 0⟩ "u" "v" = "--2147483648u^2 = 0" ∧
    render_reference ⟨-2147483648, 0, 0, 0⟩ = "-2147483648u^2 = 0" ∧
    QF_to_expr ⟨-2147483648, 0, 0, 0⟩ "u" "v" ≠ render_reference ⟨-2147483648, 0, 0, 0⟩ := by
  decide

/-- C6 (amended): for every form whose three coefficients are `int`s other than
`INT_MIN = -2147483648`, `QF_to_expr` with the variable names `u` and `v` is the
reference rendering; in particular `(0, 5, -3, 7)` renders as `5uv - 3v^2 = 7`. -/
theorem C6_QF_to_expr_reference (qf : QF)
    (huu : -2147483647 ≤ qf.coeff_uu ∧ qf.coeff_uu ≤ 2147483647)
    (huv : -2147483647 ≤ qf.coeff_uv ∧ qf.coeff_uv ≤ 2147483647)
    (hvv : -2147483647 ≤ qf.coeff_vv ∧ qf.coeff_vv ≤ 2147483647) :
    QF_to_expr qf "u" "v" = render_reference qf ∧
    QF_to_expr ⟨0, 5, -3, 7⟩ "u" "v" = "5uv - 3v^2 = 7" :=
  ⟨QF_to_expr_eq_reference qf huu huv hvv, by decide⟩

/-- Witness of C6: the form `(-1, 1, -12, -7)`, with magnitudes `1` and a
negative first term. -/
theorem C6_QF_to_expr_reference_witness :
    (-2147483647 ≤ (-1 : Int) ∧ (-1 : Int) ≤ 2147483647) ∧
    (-2147483647 ≤ (1 : Int) ∧ (1 : Int) ≤ 2147483647) ∧
    (-2147483647 ≤ (-12 : Int) ∧ (-12 : Int) ≤ 2147483647) ∧
    render_reference ⟨-1, 1, -12, -7⟩ = "-u^2 + uv - 12v^2 = -7" ∧
    (QF_to_expr ⟨-1, 1, -12, -7⟩ "u" "v" = render_reference ⟨-1, 1, -12, -7⟩ ∧
    QF_to_expr ⟨0, 5, -3, 7⟩ "u" "v" = "5uv - 3v^2 = 7") :=
  ⟨by decide, by decide, by decide, by decide,
    C6_QF_to_expr_reference ⟨-1, 1, -12, -7⟩ (by decide) (by decide) (by decide)⟩

/-! ## Claims on `getPellOP` -/

/-- C7: `getPellOP` is a total function, and on every input on which a stage
fails (a validation check fails, `generate_PellSeeds` returns `-1`,
`random_invertible_matrix` fails, or any other exception leaves the `try`
block) the result is the sentinel: `D = -1`, matrix `(0,0,0,0)`, form
`(0,0,0,0)`, `timeout = 0`, `noise = 0` and an expression made of the prefix
`"Error: "` and the text of the exception.  The first case of the hypothesis is
`D_low > D_high`, whatever the other arguments and the collaborators are. -/
theorem C7_getPellOP_error_result (P : Platform) (w : World)
    (D_low D_high coeff_range timeout : Int) (noise_lower noise_upper : Dbl)
    (h : D_low > D_high ∨ D_high ≤ 0 ∨ coeff_range ≤ 0 ∨ timeout ≤ 0 ∨
      ¬ Dbl.lt noise_lower noise_upper ∨
      generate_PellSeeds P w.rnd D_low D_high = -1 ∨
      (∃ e, random_invertible_matrix coeff_range w.draws = Except.error e) ∨
      (∃ e, getPellOP_try P w D_low D_high coeff_range timeout noise_lower noise_upper
        = Except.error e)) :
    ∃ e : Exn, getPellOP P w D_low D_high coeff_range timeout noise_lower noise_upper
      = ⟨"Error: " ++ e.what, ⟨0, 0, 0, 0⟩, -1, (0, 0, 0, 0), 0, 0⟩ := by
  cases htry : getPellOP_try P w D_low D_high coeff_range timeout noise_lower noise_upper with
  | error e =>
    exact ⟨e, getPellOP_of_error P w D_low D_high coeff_range timeout noise_lower noise_upper
      e htry⟩
  | ok ret =>
    exfalso
    obtain ⟨h1, h2, h3, h4, h5, h6, h7, h8, -⟩ :=
      getPellOP_try_ok P w D_low D_high coeff_range timeout noise_lower noise_upper ret htry
    rcases h with h | h | h | h | h | h | ⟨e, h⟩ | ⟨e, h⟩
    · omega
    · omega
    · omega
    · omega
    · exact h h5
    · rw [← h6] at h
      exact h7 h
    · rw [h8] at h
      exact absurd h (by simp)
    · rw [htry] at h
      exact absurd h (by simp)

/-- Witness of C7: the call with `D_low = 10 > D_high = 9`. -/
theorem C7_getPellOP_error_result_witness :
    (10 : Int) > 9 ∧
    getPellOP x86_64 sampleWorld 10 9 10 60000 ⟨-1, -6⟩ ⟨1, -6⟩
      = ⟨"Error: Invalid D range.", ⟨0, 0, 0, 0⟩, -1, (0, 0, 0, 0), 0, 0⟩ ∧
    ∃ e : Exn, getPellOP x86_64 sampleWorld 10 9 10 60000 ⟨-1, -6⟩ ⟨1, -6⟩
      = ⟨"Error: " ++ e.what, ⟨0, 0, 0, 0⟩, -1, (0, 0, 0, 0), 0, 0⟩ :=
  ⟨by decide, by decide,
    C7_getPellOP_error_result x86_64 sampleWorld 10 9 10 60000 ⟨-1, -6⟩ ⟨1, -6⟩
      (Or.inl (by decide))⟩

/-- C8 (as stated, refuted): with `timeout = 10`, the bounds `noise_lower` the
`double` nearest to `-0.7` and `noise_upper = 0`, and the fraction drawn equal
to `noise_lower`, the call succeeds with `noise = 7`: the `double` product
`10 * (-0.7)` is rounded to `-7`, whereas `10 · max(|noise_lower|, |noise_upper|)`
is `6.99999999999999955...`, below `7`. -/
theorem C8_noise_bound_rounding_counterexample :
    (minusSevenTenths.toRat ≤ noiseWorld.frac.toRat ∧
      noiseWorld.frac.toRat ≤ (⟨0, 0⟩ : Dbl).toRat) ∧
    (getPellOP x86_64 noiseWorld 1 100 10 10 minusSevenTenths ⟨0, 0⟩).D ≠ -1 ∧
    (getPellOP x86_64 noiseWorld 1 100 10 10 minusSevenTenths ⟨0, 0⟩).noise = 7 ∧
    ¬ (((getPellOP x86_64 noiseWorld 1 100 10 10 minusSevenTenths ⟨0, 0⟩).noise : ℚ)
      ≤ ((10 : Int) : ℚ) * max |minusSevenTenths.toRat| |(⟨0, 0⟩ : Dbl).toRat|) := by
  have hn : (getPellOP x86_64 noiseWorld 1 100 10 10 minusSevenTenths ⟨0, 0⟩).noise = 7 := by
    decide
  refine ⟨⟨le_refl _, ?_⟩, by decide, hn, ?_⟩
  · norm_num [Dbl.toRat, noiseWorld, minusSevenTenths]
  · rw [hn]
    norm_num [Dbl.toRat, minusSevenTenths]
    rw [abs_of_pos (by norm_num)]
    norm_num

/-- C8 (amended): for every successful call of `getPellOP` and every noise
fraction drawn from `[noise_lower, noise_upper]`, the returned noise satisfies
`0 ≤ noise ≤ ⌈timeout · max(|noise_lower|, |noise_upper|)⌉`, the bound of the
claim rounded up to an integer. -/
theorem C8_getPellOP_noise_bound (P : Platform) (w : World)
    (D_low D_high coeff_range timeout : Int) (noise_lower noise_upper : Dbl)
    (hfrac : noise_lower.toRat ≤ w.frac.toRat ∧ w.frac.toRat ≤ noise_upper.toRat)
    (hs : (getPellOP P w D_low D_high coeff_range timeout noise_lower noise_upper).D ≠ -1) :
    0 ≤ (getPellOP P w D_low D_high coeff_range timeout noise_lower noise_upper).noise ∧
    (getPellOP P w D_low D_high coeff_range timeout noise_lower noise_upper).noise
      ≤ ⌈(timeout : ℚ) * max |noise_lower.toRat| |noise_upper.toRat|⌉ := by
  have htry := getPellOP_success P w D_low D_high coeff_range timeout noise_lower noise_upper hs
  obtain ⟨-, -, -, ht, -, -, -, -, hnoise, hver, -⟩ :=
    getPellOP_try_ok P w D_low D_high coeff_range timeout noise_lower noise_upper _ htry
  generalize (getPellOP P w D_low D_high coeff_range timeout noise_lower noise_upper) = ret
    at hnoise hver ⊢
  have h0 : 0 ≤ ret.noise := (pell_verifer_ok _ _ _ _ _ _ hver).2
  refine ⟨h0, ?_⟩
  have hlt : (ret.noise : ℚ) < |(timeout : ℚ) * w.frac.toRat| + 1 := by
    rw [hnoise] at h0 ⊢
    exact noise_lt_product_add_one P timeout w.frac h0
  have htq : (0 : ℚ) < (timeout : ℚ) := by exact_mod_cast ht
  have hfr : |w.frac.toRat| ≤ max |noise_lower.toRat| |noise_upper.toRat| :=
    abs_le_max_abs_abs hfrac.1 hfrac.2
  have hV : |(timeout : ℚ) * w.frac.toRat|
      ≤ (timeout : ℚ) * max |noise_lower.toRat| |noise_upper.toRat| := by
    rw [abs_mul, abs_of_pos htq]
    exact mul_le_mul_of_nonneg_left hfr (le_of_lt htq)
  have hceil : ret.noise - 1 < ⌈(timeout : ℚ) * max |noise_lower.toRat| |noise_upper.toRat|⌉ := by
    rw [Int.lt_ceil]
    push_cast
    linarith
  omega

/-- Witness of C8: the default timeout `60000` with the bounds `-1/64` and
`1/64` and the fraction `1/128`: the noise is `468`. -/
theorem C8_getPellOP_noise_bound_witness :
    ((⟨-1, -6⟩ : Dbl).toRat ≤ sampleWorld.frac.toRat ∧
      sampleWorld.frac.toRat ≤ (⟨1, -6⟩ : Dbl).toRat) ∧
    (getPellOP x86_64 sampleWorld 1 100 10 60000 ⟨-1, -6⟩ ⟨1, -6⟩).D ≠ -1 ∧
    (getPellOP x86_64 sampleWorld 1 100 10 60000 ⟨-1, -6⟩ ⟨1, -6⟩).noise = 468 ∧
    (0 ≤ (getPellOP x86_64 sampleWorld 1 100 10 60000 ⟨-1, -6⟩ ⟨1, -6⟩).noise ∧
    (getPellOP x86_64 sampleWorld 1 100 10 60000 ⟨-1, -6⟩ ⟨1, -6⟩).noise
      ≤ ⌈((60000 : Int) : ℚ) * max |(⟨-1, -6⟩ : Dbl).toRat| |(⟨1, -6⟩ : Dbl).toRat|⌉) :=
  ⟨by norm_num [Dbl.toRat, sampleWorld], by decide, by decide,
    C8_getPellOP_noise_bound x86_64 sampleWorld 1 100 10 60000 ⟨-1, -6⟩ ⟨1, -6⟩
      (by norm_num [Dbl.toRat, sampleWorld]) (by decide)⟩

/-- C9 (as stated, refuted): the call with `D_low = 0`, `D_high = 9` in which
`rand()` returns `0` succeeds with `D = 0`, which is not a positive integer. -/
theorem C9_getPellOP_zero_seed_counterexample :
    (getPellOP x86_64 sampleWorld 0 9 10 60000 ⟨-1, -6⟩ ⟨1, -6⟩).D = 0 ∧
    (getPellOP x86_64 sampleWorld 0 9 10 60000 ⟨-1, -6⟩ ⟨1, -6⟩).D ≠ -1 ∧
    (getPellOP x86_64 sampleWorld 0 9 10 60000 ⟨-1, -6⟩ ⟨1, -6⟩).toBool = true ∧
    ¬ (1 ≤ (getPellOP x86_64 sampleWorld 0 9 10 60000 ⟨-1, -6⟩ ⟨1, -6⟩).D) := by
  decide

/-- C9 (amended): for every call of `getPellOP` with `D_low ≥ 0` that succeeds
(the returned `D` is not the sentinel), the returned `D` is a non-negative
perfect square with `D_low ≤ D ≤ D_high`; it is positive when `D_low ≥ 1`. -/
theorem C9_getPellOP_seed_in_window (P : Platform) (w : World)
    (D_low D_high coeff_range timeout : Int) (noise_lower noise_upper : Dbl)
    (h0 : 0 ≤ D_low) (hhi : D_high ≤ 2147483647)
    (hs : (getPellOP P w D_low D_high coeff_range timeout noise_lower noise_upper).D ≠ -1) :
    0 ≤ (getPellOP P w D_low D_high coeff_range timeout noise_lower noise_upper).D ∧
    (∃ k : Int, 0 ≤ k ∧
      (getPellOP P w D_low D_high coeff_range timeout noise_lower noise_upper).D = k * k) ∧
    D_low ≤ (getPellOP P w D_low D_high coeff_range timeout noise_lower noise_upper).D ∧
    (getPellOP P w D_low D_high coeff_range timeout noise_lower noise_upper).D ≤ D_high ∧
    (1 ≤ D_low →
      1 ≤ (getPellOP P w D_low D_high coeff_range timeout noise_lower noise_upper).D) := by
  have htry := getPellOP_success P w D_low D_high coeff_range timeout noise_lower noise_upper hs
  obtain ⟨h1, h2, -, -, -, h6, h7, -⟩ :=
    getPellOP_try_ok P w D_low D_high coeff_range timeout noise_lower noise_upper _ htry
  have hwin : ceil_sqrt P D_low ≤ floor_sqrt P D_high := by
    by_contra hc
    apply h7
    rw [h6]
    exact (generate_PellSeeds_sentinel_iff P w.rnd D_low D_high).mpr
      (Or.inr (Or.inr (not_le.mp hc)))
  obtain ⟨root, hr1, -, hr3, hr4, hr5⟩ :=
    generate_PellSeeds_root P w.rnd D_low D_high h0 h1 h2 hhi hwin
  have hc0 := (ceil_sqrt_spec P D_low h0 (by omega)).1
  rw [h6, hr3]
  refine ⟨by nlinarith, ⟨root, by omega, rfl⟩, hr4, hr5, ?_⟩
  intro hlow
  omega

/-- Witness of C9: the default window `[1, 100]`, where `rand() = 0` gives
`D = 1`. -/
theorem C9_getPellOP_seed_in_window_witness :
    (0 : Int) ≤ 1 ∧ (100 : Int) ≤ 2147483647 ∧
    (getPellOP x86_64 sampleWorld 1 100 10 60000 ⟨-1, -6⟩ ⟨1, -6⟩).D = 1 ∧
    (0 ≤ (getPellOP x86_64 sampleWorld 1 100 10 60000 ⟨-1, -6⟩ ⟨1, -6⟩).D ∧
    (∃ k : Int, 0 ≤ k ∧
      (getPellOP x86_64 sampleWorld 1 100 10 60000 ⟨-1, -6⟩ ⟨1, -6⟩).D = k * k) ∧
    1 ≤ (getPellOP x86_64 sampleWorld 1 100 10 60000 ⟨-1, -6⟩ ⟨1, -6⟩).D ∧
    (getPellOP x86_64 sampleWorld 1 100 10 60000 ⟨-1, -6⟩ ⟨1, -6⟩).D ≤ 100 ∧
    ((1 : Int) ≤ 1 →
      1 ≤ (getPellOP x86_64 sampleWorld 1 100 10 60000 ⟨-1, -6⟩ ⟨1, -6⟩).D)) :=
  ⟨by decide, by decide, by decide,
    C9_getPellOP_seed_in_window x86_64 sampleWorld 1 100 10 60000 ⟨-1, -6⟩ ⟨1, -6⟩
      (by decide) (by decide) (by decide)⟩

/-- C10 (the code at the failing input): for the window `[-5, 9]` none of the
three cases of the sentinel holds on x86-64, and with `rand() = 46341` the
function returns `-2147479015`, a negative value that is no square.  It is the
defect of C3: the square root of a negative `low` is a NaN. -/
theorem C10_generate_PellSeeds_negative_result :
    ¬ ((-5 : Int) > 9) ∧ ¬ ((9 : Int) ≤ 0) ∧
    ¬ (ceil_sqrt x86_64 (-5) > floor_sqrt x86_64 9) ∧
    generate_PellSeeds x86_64 46341 (-5) 9 = -2147479015 ∧
    generate_PellSeeds x86_64 46341 (-5) 9 ≠ -1 ∧
    ¬ (0 ≤ generate_PellSeeds x86_64 46341 (-5) 9) := by
  decide

/-! ## Claims on the trials of `random_invertible_matrix` -/

/-- C11 (as stated, refuted): with `range = 65536` and the candidate
`(65536, 0, 0, 65536)` at every trial, the first candidate has the determinant
`4294967296`, which is not zero, and yet the function fails: the source
computes `a * d - b * c` on `int`s, where this determinant is `0`. -/
theorem C11_wide_range_counterexample :
    (0 : Int) < 65536 ∧ InInt32 65536 ∧
    candidate 65536 drawsWide 0 = (65536, 0, 0, 65536) ∧
    det (candidate 65536 drawsWide 0) = 4294967296 ∧
    det (candidate 65536 drawsWide 0) ≠ 0 ∧
    random_invertible_matrix 65536 drawsWide
      = Except.error (Exn.runtime_error "Failed to generate invertible matrix.") := by
  refine ⟨by decide, by decide, by rfl, by decide, by decide, by rfl⟩

/-- C11 (amended): for every `range` with `0 < range ≤ 46340` and every
sequence of raw draws, `random_invertible_matrix range` inspects at most 100
candidates (its result depends on the first 400 draws only): it returns the
first candidate among the first 100 whose determinant `a·d − b·c` is not zero,
and it fails, with the construction failure, if and only if all of the first
100 candidates have determinant zero. -/
theorem C11_random_invertible_matrix_first_candidate (range : Int) (draws : Nat → Nat)
    (h0 : 0 < range) (h1 : range ≤ 46340) :
    (∀ m : Mat, random_invertible_matrix range draws = Except.ok m ↔
      ∃ t : Nat, t < 100 ∧ candidate range draws t = m ∧ det m ≠ 0 ∧
        ∀ s : Nat, s < t → det (candidate range draws s) = 0) ∧
    (∀ e : Exn, random_invertible_matrix range draws = Except.error e ↔
      (e = Exn.runtime_error "Failed to generate invertible matrix." ∧
        ∀ t : Nat, t < 100 → det (candidate range draws t) = 0)) ∧
    (∀ other : Nat → Nat, (∀ i : Nat, i < 400 → other i = draws i) →
      random_invertible_matrix range other = random_invertible_matrix range draws) := by
  have hiff : ∀ (dr : Nat → Nat) (t : Nat),
      det32 (candidate range dr t) = 0 ↔ det (candidate range dr t) = 0 := by
    intro dr t
    obtain ⟨ha, hb, hc, hd⟩ := candidate_mem range dr t h0 (by omega)
    exact det32_eq_zero_iff _ range h1 ha hb hc hd
  have hunf : ∀ dr : Nat → Nat, random_invertible_matrix range dr
      = random_invertible_matrix_loop range dr 100 0 := by
    intro dr
    unfold random_invertible_matrix
    rw [if_neg (by omega)]
  have hok : ∀ (dr : Nat → Nat) (m : Mat), random_invertible_matrix range dr = Except.ok m ↔
      ∃ t : Nat, t < 100 ∧ candidate range dr t = m ∧ det m ≠ 0 ∧
        ∀ s : Nat, s < t → det (candidate range dr s) = 0 := by
    intro dr m
    rw [hunf, random_invertible_matrix_loop_ok_iff]
    constructor
    · rintro ⟨t, -, h3, h4, h5, h6⟩
      refine ⟨t, by omega, h4, ?_, ?_⟩
      · rw [← h4]
        exact fun h => h5 ((hiff dr t).mpr h)
      · intro s hs
        exact (hiff dr s).mp (h6 s (Nat.zero_le s) hs)
    · rintro ⟨t, h3, h4, h5, h6⟩
      refine ⟨t, Nat.zero_le t, by omega, h4, ?_, ?_⟩
      · rw [← h4] at h5
        exact fun h => h5 ((hiff dr t).mp h)
      · intro s _ hs
        exact (hiff dr s).mpr (h6 s hs)
  have herr : ∀ (dr : Nat → Nat) (e : Exn),
      random_invertible_matrix range dr = Except.error e ↔
      (e = Exn.runtime_error "Failed to generate invertible matrix." ∧
        ∀ t : Nat, t < 100 → det (candidate range dr t) = 0) := by
    intro dr e
    rw [hunf, random_invertible_matrix_loop_error_iff]
    constructor
    · rintro ⟨he, h⟩
      exact ⟨he, fun t ht => (hiff dr t).mp (h t (Nat.zero_le t) (by omega))⟩
    · rintro ⟨he, h⟩
      exact ⟨he, fun t _ ht => (hiff dr t).mpr (h t (by omega))⟩
  refine ⟨hok draws, herr draws, ?_⟩
  intro other hsame
  have hcand : ∀ t : Nat, t < 100 → candidate range other t = candidate range draws t := by
    intro t ht
    unfold candidate
    rw [hsame (4 * t) (by omega), hsame (4 * t + 1) (by omega), hsame (4 * t + 2) (by omega),
      hsame (4 * t + 3) (by omega)]
  cases hres : random_invertible_matrix range draws with
  | error e =>
    rw [herr] at hres ⊢
    exact ⟨hres.1, fun t ht => by rw [hcand t ht]; exact hres.2 t ht⟩
  | ok m =>
    rw [hok] at hres ⊢
    obtain ⟨t, h3, h4, h5, h6⟩ := hres
    exact ⟨t, h3, by rw [hcand t h3]; exact h4, h5,
      fun s hs => by rw [hcand s (by omega)]; exact h6 s hs⟩

/-- Witness of C11: with `range = 10` the identity matrix is the first
candidate. -/
theorem C11_random_invertible_matrix_first_candidate_witness :
    (0 : Int) < 10 ∧ (10 : Int) ≤ 46340 ∧
    random_invertible_matrix 10 drawsIdentity = Except.ok (1, 0, 0, 1) ∧
    (∀ m : Mat, random_invertible_matrix 10 drawsIdentity = Except.ok m ↔
      ∃ t : Nat, t < 100 ∧ candidate 10 drawsIdentity t = m ∧ det m ≠ 0 ∧
        ∀ s : Nat, s < t → det (candidate 10 drawsIdentity s) = 0) :=
  ⟨by decide, by decide, by rfl,
    (C11_random_invertible_matrix_first_candidate 10 drawsIdentity (by decide) (by decide)).1⟩

/-! ## Claims on the validation and the result of `getPellOP` -/

/-- C12: `getPellOP` checks, in this order, `D_low ≤ D_high` and `D_high > 0`,
`coeff_range > 0`, `timeout > 0`, `noise_lower < noise_upper`; the result is
the sentinel with the diagnostic of the first check that fails, whatever the
later arguments are, and it is the same for all collaborators: no random draw
and no reply of the solver enters it. -/
theorem C12_getPellOP_validation_order (P : Platform) (w : World)
    (D_low D_high coeff_range timeout : Int) (noise_lower noise_upper : Dbl) :
    ((D_low > D_high ∨ D_high ≤ 0) →
      getPellOP P w D_low D_high coeff_range timeout noise_lower noise_upper
        = ⟨"Error: Invalid D range.", ⟨0, 0, 0, 0⟩, -1, (0, 0, 0, 0), 0, 0⟩) ∧
    ((D_low ≤ D_high ∧ 0 < D_high) → coeff_range ≤ 0 →
      getPellOP P w D_low D_high coeff_range timeout noise_lower noise_upper
        = ⟨"Error: Coefficient range must be positive.", ⟨0, 0, 0, 0⟩, -1, (0, 0, 0, 0),
            0, 0⟩) ∧
    ((D_low ≤ D_high ∧ 0 < D_high) → 0 < coeff_range → timeout ≤ 0 →
      getPellOP P w D_low D_high coeff_range timeout noise_lower noise_upper
        = ⟨"Error: Timeout must be positive.", ⟨0, 0, 0, 0⟩, -1, (0, 0, 0, 0), 0, 0⟩) ∧
    ((D_low ≤ D_high ∧ 0 < D_high) → 0 < coeff_range → 0 < timeout →
      noise_upper.toRat ≤ noise_lower.toRat →
      getPellOP P w D_low D_high coeff_range timeout noise_lower noise_upper
        = ⟨"Error: Noise range invalid: lower must be < upper.", ⟨0, 0, 0, 0⟩, -1,
            (0, 0, 0, 0), 0, 0⟩) ∧
    ((D_low > D_high ∨ D_high ≤ 0 ∨ coeff_range ≤ 0 ∨ timeout ≤ 0 ∨
        noise_upper.toRat ≤ noise_lower.toRat) →
      ∀ (P2 : Platform) (w2 : World),
        getPellOP P2 w2 D_low D_high coeff_range timeout noise_lower noise_upper
          = getPellOP P w D_low D_high coeff_range timeout noise_lower noise_upper) := by
  have key : ∀ (Q : Platform) (v : World),
      ((D_low > D_high ∨ D_high ≤ 0) →
        getPellOP Q v D_low D_high coeff_range timeout noise_lower noise_upper
          = ⟨"Error: Invalid D range.", ⟨0, 0, 0, 0⟩, -1, (0, 0, 0, 0), 0, 0⟩) ∧
      ((D_low ≤ D_high ∧ 0 < D_high) → coeff_range ≤ 0 →
        getPellOP Q v D_low D_high coeff_range timeout noise_lower noise_upper
          = ⟨"Error: Coefficient range must be positive.", ⟨0, 0, 0, 0⟩, -1, (0, 0, 0, 0),
              0, 0⟩) ∧
      ((D_low ≤ D_high ∧ 0 < D_high) → 0 < coeff_range → timeout ≤ 0 →
        getPellOP Q v D_low D_high coeff_range timeout noise_lower noise_upper
          = ⟨"Error: Timeout must be positive.", ⟨0, 0, 0, 0⟩, -1, (0, 0, 0, 0), 0, 0⟩) ∧
      ((D_low ≤ D_high ∧ 0 < D_high) → 0 < coeff_range → 0 < timeout →
        noise_upper.toRat ≤ noise_lower.toRat →
        getPellOP Q v D_low D_high coeff_range timeout noise_lower noise_upper
          = ⟨"Error: Noise range invalid: lower must be < upper.", ⟨0, 0, 0, 0⟩, -1,
              (0, 0, 0, 0), 0, 0⟩) := by
    intro Q v
    refine ⟨?_, ?_, ?_, ?_⟩
    · intro h1
      apply getPellOP_of_error Q v _ _ _ _ _ _ (Exn.invalid_argument "Invalid D range.")
      unfold getPellOP_try
      rw [if_pos h1]
    · intro h1 h2
      apply getPellOP_of_error Q v _ _ _ _ _ _
        (Exn.invalid_argument "Coefficient range must be positive.")
      unfold getPellOP_try
      rw [if_neg (by omega), if_pos h2]
    · intro h1 h2 h3
      apply getPellOP_of_error Q v _ _ _ _ _ _ (Exn.invalid_argument "Timeout must be positive.")
      unfold getPellOP_try
      rw [if_neg (by omega), if_neg (by omega), if_pos h3]
    · intro h1 h2 h3 h4
      apply getPellOP_of_error Q v _ _ _ _ _ _
        (Exn.invalid_argument "Noise range invalid: lower must be < upper.")
      unfold getPellOP_try
      rw [if_neg (by omega), if_neg (by omega), if_neg (by omega),
        if_pos ((not_lt_iff_toRat noise_lower noise_upper).mpr h4)]
  obtain ⟨k1, k2, k3, k4⟩ := key P w
  refine ⟨k1, k2, k3, k4, ?_⟩
  intro h P2 w2
  obtain ⟨j1, j2, j3, j4⟩ := key P2 w2
  by_cases c1 : D_low > D_high ∨ D_high ≤ 0
  · rw [k1 c1, j1 c1]
  · have c1b : D_low ≤ D_high ∧ 0 < D_high := by omega
    by_cases c2 : coeff_range ≤ 0
    · rw [k2 c1b c2, j2 c1b c2]
    · by_cases c3 : timeout ≤ 0
      · rw [k3 c1b (by omega) c3, j3 c1b (by omega) c3]
      · have c4 : noise_upper.toRat ≤ noise_lower.toRat := by
          rcases h with h | h | h | h | h
          · omega
          · omega
          · omega
          · omega
          · exact h
        rw [k4 c1b (by omega) (by omega) c4, j4 c1b (by omega) (by omega) c4]

/-- An instance of C12: all four checks fail, and the diagnostic is the one of
the window of `D`. -/
theorem C12_getPellOP_validation_order_witness :
    ((10 : Int) > 9 ∨ (9 : Int) ≤ 0) ∧ (0 : Int) ≤ 0 ∧ (-5 : Int) ≤ 0 ∧
    getPellOP x86_64 sampleWorld 10 9 0 (-5) ⟨1, -6⟩ ⟨-1, -6⟩
      = ⟨"Error: Invalid D range.", ⟨0, 0, 0, 0⟩, -1, (0, 0, 0, 0), 0, 0⟩ :=
  ⟨by decide, by decide, by decide,
    (C12_getPellOP_validation_order x86_64 sampleWorld 10 9 0 (-5) ⟨1, -6⟩ ⟨-1, -6⟩).1
      (by decide)⟩

/-- C13 (as stated, refuted): the call with the window `[4, 4]` and the matrix
`(1, 0, 1, 2)` succeeds with the form `(0, 8, -4, 4)`; the expression returned
is `0*u^2 + 8*uv - 4*v^2 = 4`, with a `u^2` term although `coeff_uu = 0`, and it
is not the text `8uv - 4v^2 = 4` of `QF_to_expr`. -/
theorem C13_getPellOP_expression_counterexample :
    (getPellOP x86_64 zeroLeadWorld 4 4 10 60000 ⟨-1, -6⟩ ⟨1, -6⟩).D ≠ -1 ∧
    (getPellOP x86_64 zeroLeadWorld 4 4 10 60000 ⟨-1, -6⟩ ⟨1, -6⟩).qf = ⟨0, 8, -4, 4⟩ ∧
    (getPellOP x86_64 zeroLeadWorld 4 4 10 60000 ⟨-1, -6⟩ ⟨1, -6⟩).expression
      = "0*u^2 + 8*uv - 4*v^2 = 4" ∧
    QF_to_expr (getPellOP x86_64 zeroLeadWorld 4 4 10 60000 ⟨-1, -6⟩ ⟨1, -6⟩).qf "u" "v"
      = "8uv - 4v^2 = 4" ∧
    (getPellOP x86_64 zeroLeadWorld 4 4 10 60000 ⟨-1, -6⟩ ⟨1, -6⟩).expression
      ≠ QF_to_expr (getPellOP x86_64 zeroLeadWorld 4 4 10 60000 ⟨-1, -6⟩ ⟨1, -6⟩).qf
          "u" "v" := by
  decide

/-- C13 (amended): for every successful call of `getPellOP` whose returned `uv`
and `v^2` coefficients are not `INT_MIN`, the returned expression is the
rendering with explicit multiplication of the returned form: the `u^2` term
`coeff_uu*u^2` always, each of the `uv` and `v^2` terms exactly when its
coefficient is not zero (after `" + "` or `" - "`, with its magnitude and `*`),
then `" = "` and the right-hand side. -/
theorem C13_getPellOP_expression_explicit (P : Platform) (w : World)
    (D_low D_high coeff_range timeout : Int) (noise_lower noise_upper : Dbl)
    (hs : (getPellOP P w D_low D_high coeff_range timeout noise_lower noise_upper).D ≠ -1)
    (huv : -2147483647
      ≤ (getPellOP P w D_low D_high coeff_range timeout noise_lower noise_upper).qf.coeff_uv)
    (hvv : -2147483647
      ≤ (getPellOP P w D_low D_high coeff_range timeout noise_lower noise_upper).qf.coeff_vv) :
    (getPellOP P w D_low D_high coeff_range timeout noise_lower noise_upper).expression
      = render_explicit_reference
          (getPellOP P w D_low D_high coeff_range timeout noise_lower noise_upper).qf := by
  have htry := getPellOP_success P w D_low D_high coeff_range timeout noise_lower noise_upper hs
  obtain ⟨-, -, -, -, -, -, -, -, -, hver, -, hexpr⟩ :=
    getPellOP_try_ok P w D_low D_high coeff_range timeout noise_lower noise_upper _ htry
  generalize (getPellOP P w D_low D_high coeff_range timeout noise_lower noise_upper) = ret
    at hver hexpr huv hvv ⊢
  have hq : ret.qf = pell_transformer ret.D ret.mat := pell_verifer_ok_eq _ _ _ _ _ _ hver
  have huv2 : ret.qf.coeff_uv ≤ 2147483647 := by
    rw [hq]
    exact (wrap32_inInt32 _).2
  have hvv2 : ret.qf.coeff_vv ≤ 2147483647 := by
    rw [hq]
    exact (wrap32_inInt32 _).2
  rw [hexpr]
  exact getPellOP_expression_eq_reference ret.qf ⟨huv, huv2⟩ ⟨hvv, hvv2⟩

/-- Witness of C13: the default call, whose form is `(1, 0, -1, 1)`. -/
theorem C13_getPellOP_expression_explicit_witness :
    (getPellOP x86_64 sampleWorld 1 100 10 60000 ⟨-1, -6⟩ ⟨1, -6⟩).D ≠ -1 ∧
    (getPellOP x86_64 sampleWorld 1 100 10 60000 ⟨-1, -6⟩ ⟨1, -6⟩).qf = ⟨1, 0, -1, 1⟩ ∧
    render_explicit_reference ⟨1, 0, -1, 1⟩ = "1*u^2 - 1*v^2 = 1" ∧
    (getPellOP x86_64 sampleWorld 1 100 10 60000 ⟨-1, -6⟩ ⟨1, -6⟩).expression
      = render_explicit_reference
          (getPellOP x86_64 sampleWorld 1 100 10 60000 ⟨-1, -6⟩ ⟨1, -6⟩).qf :=
  ⟨by decide, by decide, by decide,
    C13_getPellOP_expression_explicit x86_64 sampleWorld 1 100 10 60000 ⟨-1, -6⟩ ⟨1, -6⟩
      (by decide) (by decide) (by decide)⟩

/-- C14: `pell_verifer` raises exactly when `timeout ≤ 0` or `noise < 0`, the
exception is then an invalid-argument error that does not depend on what the
solver does or on the elapsed time (it is raised before the query), and for
`timeout > 0` and `noise ≥ 0` the function returns. -/
theorem C14_pell_verifer_argument_check (qf : QF) (timeout noise : Int) (reply : SolverReply)
    (elapsed : Dbl) :
    ((∃ e, pell_verifer qf timeout noise reply elapsed = Except.error e) ↔
      (timeout ≤ 0 ∨ noise < 0)) ∧
    (∀ e, pell_verifer qf timeout noise reply elapsed = Except.error e →
      (e = Exn.invalid_argument "timeout must be positive" ∨
        e = Exn.invalid_argument "noise must be non-negative") ∧
      ∀ (reply2 : SolverReply) (elapsed2 : Dbl),
        pell_verifer qf timeout noise reply2 elapsed2 = Except.error e) ∧
    ((0 < timeout ∧ 0 ≤ noise) → pell_verifer qf timeout noise reply elapsed = Except.ok qf) := by
  have hok : ∀ (r : SolverReply) (el : Dbl), 0 < timeout → 0 ≤ noise →
      pell_verifer qf timeout noise r el = Except.ok qf := by
    intro r el ht hn
    unfold pell_verifer
    rw [if_neg (by omega), if_neg (by omega)]
    cases r with
    | throws => rfl
    | returns result =>
      simp only
      split <;> rfl
  refine ⟨?_, ?_, fun h => hok reply elapsed h.1 h.2⟩
  · constructor
    · rintro ⟨e, he⟩
      by_contra hc
      rw [hok reply elapsed (by omega) (by omega)] at he
      exact absurd he (by simp)
    · intro h
      unfold pell_verifer
      by_cases ht : timeout ≤ 0
      · exact ⟨_, by rw [if_pos ht]⟩
      · exact ⟨_, by rw [if_neg ht, if_pos (by omega)]⟩
  · intro e he
    by_cases ht : timeout ≤ 0
    · unfold pell_verifer at he ⊢
      rw [if_pos ht] at he
      have h := (Except.error.inj he).symm
      refine ⟨Or.inl h, fun reply2 elapsed2 => ?_⟩
      rw [if_pos ht, h]
    · by_cases hn : noise < 0
      · unfold pell_verifer at he ⊢
        rw [if_neg ht, if_pos hn] at he
        have h := (Except.error.inj he).symm
        refine ⟨Or.inr h, fun reply2 elapsed2 => ?_⟩
        rw [if_neg ht, if_pos hn, h]
      · rw [hok reply elapsed (by omega) (by omega)] at he
        exact absurd he (by simp)

/-- C15 (the code at the failing input): on x86-64 the call with the window
`[-5, 9]` in which `rand()` returns `46341` completes without an exception, and
its result has `D = -2147479015`: it is not the sentinel, yet `D < 0` and the
conversion to `bool` is `false`.  It is the defect of C3, a negative `D_low`
reaching the square root. -/
theorem C15_getPellOP_negative_seed :
    (getPellOP x86_64 lateSeedWorld (-5) 9 10 60000 ⟨-1, -6⟩ ⟨1, -6⟩).D = -2147479015 ∧
    (getPellOP x86_64 lateSeedWorld (-5) 9 10 60000 ⟨-1, -6⟩ ⟨1, -6⟩).D ≠ -1 ∧
    (getPellOP x86_64 lateSeedWorld (-5) 9 10 60000 ⟨-1, -6⟩ ⟨1, -6⟩).expression
      = "1*u^2 + 2147479015*v^2 = 1" ∧
    ¬ (0 ≤ (getPellOP x86_64 lateSeedWorld (-5) 9 10 60000 ⟨-1, -6⟩ ⟨1, -6⟩).D) ∧
    (getPellOP x86_64 lateSeedWorld (-5) 9 10 60000 ⟨-1, -6⟩ ⟨1, -6⟩).toBool = false := by
  decide

/-! ## Further claims on `pell_transformer` -/

/-- C16 (as stated, refuted): for `D = 4` and the matrix `(0, 1, 65536, 0)` the
returned form is `(0, 0, 1, 0)`, and `(u, v) = (a, c) = (0, 65536)` does not
solve it: the left-hand side is `4294967296` and the right-hand side `0`. -/
theorem C16_witness_overflow_counterexample :
    pell_transformer 4 (0, 1, 65536, 0) = ⟨0, 0, 1, 0⟩ ∧
    (pell_transformer 4 (0, 1, 65536, 0)).coeff_uu * 0 ^ 2
      + (pell_transformer 4 (0, 1, 65536, 0)).coeff_uv * 0 * 65536
      + (pell_transformer 4 (0, 1, 65536, 0)).coeff_vv * 65536 ^ 2 = 4294967296 ∧
    (pell_transformer 4 (0, 1, 65536, 0)).coeff_uu * 0 ^ 2
      + (pell_transformer 4 (0, 1, 65536, 0)).coeff_uv * 0 * 65536
      + (pell_transformer 4 (0, 1, 65536, 0)).coeff_vv * 65536 ^ 2
      ≠ (pell_transformer 4 (0, 1, 65536, 0)).rhs := by
  decide

/-- C16 (amended): for every `D` and every matrix `(a, b, c, d)` on which no
intermediate value of the computation leaves the signed 32-bit range, the form
`q = pell_transformer D (a, b, c, d)` has the integer solutions `(u, v) = (a, c)`
and `(u, v) = (-a, -c)`: `q.coeff_uu·a² + q.coeff_uv·a·c + q.coeff_vv·c² = q.rhs`. -/
theorem C16_pell_transformer_solution (D a b c d : Int) (h : NoOverflow D a b c d) :
    (pell_transformer D (a, b, c, d)).coeff_uu * a ^ 2
      + (pell_transformer D (a, b, c, d)).coeff_uv * a * c
      + (pell_transformer D (a, b, c, d)).coeff_vv * c ^ 2
      = (pell_transformer D (a, b, c, d)).rhs ∧
    (pell_transformer D (a, b, c, d)).coeff_uu * (-a) ^ 2
      + (pell_transformer D (a, b, c, d)).coeff_uv * (-a) * (-c)
      + (pell_transformer D (a, b, c, d)).coeff_vv * (-c) ^ 2
      = (pell_transformer D (a, b, c, d)).rhs := by
  rw [pell_transformer_exact D a b c d h]
  simp only [pell_closed_form]
  constructor <;> ring

/-- Witness of C16: `D = 4` and the matrix `(1, 2, 3, 5)`, with the solution
`(1, 3)`. -/
theorem C16_pell_transformer_solution_witness :
    NoOverflow 4 1 2 3 5 ∧
    pell_transformer 4 (1, 2, 3, 5) = ⟨-11, 4, 0, 1⟩ ∧
    ((pell_transformer 4 (1, 2, 3, 5)).coeff_uu * 1 ^ 2
      + (pell_transformer 4 (1, 2, 3, 5)).coeff_uv * 1 * 3
      + (pell_transformer 4 (1, 2, 3, 5)).coeff_vv * 3 ^ 2
      = (pell_transformer 4 (1, 2, 3, 5)).rhs ∧
    (pell_transformer 4 (1, 2, 3, 5)).coeff_uu * (-1) ^ 2
      + (pell_transformer 4 (1, 2, 3, 5)).coeff_uv * (-1) * (-3)
      + (pell_transformer 4 (1, 2, 3, 5)).coeff_vv * (-3) ^ 2
      = (pell_transformer 4 (1, 2, 3, 5)).rhs) :=
  ⟨by decide, by decide, C16_pell_transformer_solution 4 1 2 3 5 (by decide)⟩

/-- C17 (as stated, refuted): the bounds of the claim allow `r = 0` with any
`Dmax`, since both conditions hold for `r = 0`; with `D = Dmax = 1073741824` and
the zero matrix the intermediate product `2 * D` is `2147483648`, outside the
signed 32-bit range. -/
theorem C17_zero_bound_counterexample :
    ((0 : Int) ≤ 1073741824 ∧ (1073741824 : Int) ≤ 1073741824) ∧
    InInt32 1073741824 ∧
    (2 : Int) * (1073741824 + 1) * 0 ^ 2 ≤ 2147483647 ∧ (4 : Int) * 0 ^ 4 ≤ 2147483647 ∧
    ¬ InInt32 (2 * 1073741824) ∧
    ¬ NoOverflow 1073741824 0 0 0 0 := by
  decide

/-- C17 (amended): for every `0 ≤ D ≤ Dmax` and every matrix with all
`|entries| ≤ r`, where `r ≥ 1`, `2·(Dmax + 1)·r² ≤ 2³¹ − 1` and
`4·r⁴ ≤ 2³¹ − 1` (in particular for `r = 10`, `Dmax = 100`), every
intermediate product, sum and difference of `pell_transformer` stays inside the
signed 32-bit range, and the 32-bit result is the exact closed form. -/
theorem C17_pell_transformer_no_overflow (D Dmax r a b c d : Int)
    (hD : 0 ≤ D ∧ D ≤ Dmax) (hr : 1 ≤ r)
    (ha : |a| ≤ r) (hb : |b| ≤ r) (hc : |c| ≤ r) (hd : |d| ≤ r)
    (h1 : 2 * (Dmax + 1) * r ^ 2 ≤ 2 ^ 31 - 1) (h2 : 4 * r ^ 4 ≤ 2 ^ 31 - 1) :
    NoOverflow D a b c d ∧
    pell_transformer D (a, b, c, d) = pell_closed_form D (a, b, c, d) ∧
    ((2 : Int) * (100 + 1) * 10 ^ 2 ≤ 2 ^ 31 - 1 ∧ (4 : Int) * 10 ^ 4 ≤ 2 ^ 31 - 1) := by
  have hno : NoOverflow D a b c d :=
    noOverflow_of_bounds D Dmax r a b c d hD hr (abs_le.mp ha) (abs_le.mp hb) (abs_le.mp hc)
      (abs_le.mp hd) (by norm_num at h1 ⊢; exact h1) (by norm_num at h2 ⊢; exact h2)
  exact ⟨hno, pell_transformer_exact D a b c d hno, by norm_num, by norm_num⟩

/-- Witness of C17: the defaults `Dmax = 100`, `r = 10`, with `D = 100` and
the matrix `(10, -10, 10, 10)`. -/
theorem C17_pell_transformer_no_overflow_witness :
    ((0 : Int) ≤ 100 ∧ (100 : Int) ≤ 100) ∧ (1 : Int) ≤ 10 ∧
    NoOverflow 100 10 (-10) 10 10 ∧
    pell_transformer 100 (10, -10, 10, 10) = ⟨-9900, 20200, -9900, 40000⟩ ∧
    pell_transformer 100 (10, -10, 10, 10) = pell_closed_form 100 (10, -10, 10, 10) :=
  ⟨by decide, by decide,
    (C17_pell_transformer_no_overflow 100 100 10 10 (-10) 10 10 (by decide) (by decide)
      (by decide) (by decide) (by decide) (by decide) (by decide) (by decide)).1,
    by decide,
    (C17_pell_transformer_no_overflow 100 100 10 10 (-10) 10 10 (by decide) (by decide)
      (by decide) (by decide) (by decide) (by decide) (by decide) (by decide)).2.1⟩

/-- C18 (as stated, refuted): for `D = 4` and the matrix `(0, 1, 65536, 0)` the
returned form `(0, 0, 1, 0)` has the discriminant `0`, whereas
`4·D·(a·d − b·c)²` is `68719476736`. -/
theorem C18_discriminant_overflow_counterexample :
    (pell_transformer 4 (0, 1, 65536, 0)).coeff_uv ^ 2
      - 4 * (pell_transformer 4 (0, 1, 65536, 0)).coeff_uu
        * (pell_transformer 4 (0, 1, 65536, 0)).coeff_vv = 0 ∧
    (4 : Int) * 4 * (0 * 0 - 1 * 65536) ^ 2 = 68719476736 ∧
    (pell_transformer 4 (0, 1, 65536, 0)).coeff_uv ^ 2
      - 4 * (pell_transformer 4 (0, 1, 65536, 0)).coeff_uu
        * (pell_transformer 4 (0, 1, 65536, 0)).coeff_vv
      ≠ 4 * 4 * (0 * 0 - 1 * 65536) ^ 2 := by
  decide

/-- C18 (amended): for every `D` and every matrix `(a, b, c, d)` on which no
intermediate value of the computation leaves the signed 32-bit range, the form
`q = pell_transformer D (a, b, c, d)` satisfies
`q.coeff_uv² − 4·q.coeff_uu·q.coeff_vv = 4·D·(a·d − b·c)² = 4·D·q.rhs`. -/
theorem C18_pell_transformer_discriminant (D a b c d : Int) (h : NoOverflow D a b c d) :
    (pell_transformer D (a, b, c, d)).coeff_uv ^ 2
      - 4 * (pell_transformer D (a, b, c, d)).coeff_uu
        * (pell_transformer D (a, b, c, d)).coeff_vv
      = 4 * D * (a * d - b * c) ^ 2 ∧
    4 * D * (a * d - b * c) ^ 2 = 4 * D * (pell_transformer D (a, b, c, d)).rhs := by
  rw [pell_transformer_exact D a b c d h]
  simp only [pell_closed_form]
  constructor
  · ring
  · trivial

/-- Witness of C18: `D = 4` and the matrix `(1, 2, 3, 5)`, of discriminant `16`. -/
theorem C18_pell_transformer_discriminant_witness :
    NoOverflow 4 1 2 3 5 ∧
    ((pell_transformer 4 (1, 2, 3, 5)).coeff_uv ^ 2
      - 4 * (pell_transformer 4 (1, 2, 3, 5)).coeff_uu
        * (pell_transformer 4 (1, 2, 3, 5)).coeff_vv
      = 4 * 4 * (1 * 5 - 2 * 3) ^ 2 ∧
    (4 : Int) * 4 * (1 * 5 - 2 * 3) ^ 2 = 4 * 4 * (pell_transformer 4 (1, 2, 3, 5)).rhs) :=
  ⟨by decide, C18_pell_transformer_discriminant 4 1 2 3 5 (by decide)⟩

/-- C19 (the code at the failing input): the call with `timeout = 1073741824`,
`noise_lower = -2`, `noise_upper = 0` passes the validation; with the fraction
`-2` drawn, the product `timeout * fraction` is `-2147483648`, which fits in an
`int`; `noise = -noise` leaves it at `-2147483648`, the check `noise < 0` of
`pell_verifer` fires and the call returns the error result. -/
theorem C19_getPellOP_noise_int_min :
    ((1 : Int) ≤ 100 ∧ (0 : Int) < 100 ∧ (0 : Int) < 10 ∧ (0 : Int) < 1073741824 ∧
      Dbl.lt ⟨-2, 0⟩ ⟨0, 0⟩) ∧
    (¬ Dbl.lt minusTwoWorld.frac ⟨-2, 0⟩ ∧ ¬ Dbl.lt ⟨0, 0⟩ minusTwoWorld.frac) ∧
    (dmul_int 1073741824 minusTwoWorld.frac).trunc = -2147483648 ∧
    InInt32 (dmul_int 1073741824 minusTwoWorld.frac).trunc ∧
    castInt x86_64 (dmul_int 1073741824 minusTwoWorld.frac) = -2147483648 ∧
    neg32 (-2147483648) = -2147483648 ∧
    getPellOP x86_64 minusTwoWorld 1 100 10 1073741824 ⟨-2, 0⟩ ⟨0, 0⟩
      = ⟨"Error: noise must be non-negative", ⟨0, 0, 0, 0⟩, -1, (0, 0, 0, 0), 0, 0⟩ := by
  decide

/-! ## Claims on the text of `QF_to_expr` -/

/-- C20: `QF_to_expr` with the variable names `u` and `v` is injective on the
forms whose coefficients have a representable absolute value (they are `int`s
other than `INT_MIN`): two such forms with the same text are equal field for
field. -/
theorem C20_QF_to_expr_injective (q1 q2 : QF)
    (h1uu : -2147483647 ≤ q1.coeff_uu ∧ q1.coeff_uu ≤ 2147483647)
    (h1uv : -2147483647 ≤ q1.coeff_uv ∧ q1.coeff_uv ≤ 2147483647)
    (h1vv : -2147483647 ≤ q1.coeff_vv ∧ q1.coeff_vv ≤ 2147483647)
    (h2uu : -2147483647 ≤ q2.coeff_uu ∧ q2.coeff_uu ≤ 2147483647)
    (h2uv : -2147483647 ≤ q2.coeff_uv ∧ q2.coeff_uv ≤ 2147483647)
    (h2vv : -2147483647 ≤ q2.coeff_vv ∧ q2.coeff_vv ≤ 2147483647)
    (h : QF_to_expr q1 "u" "v" = QF_to_expr q2 "u" "v") :
    q1 = q2 := by
  have r1 := readForm_QF_to_expr q1 h1uu h1uv h1vv
  have r2 := readForm_QF_to_expr q2 h2uu h2uv h2vv
  rw [h, r2] at r1
  simp only [Prod.mk.injEq] at r1
  obtain ⟨s1, s2, s3, ht⟩ := r1
  have e1 := termSlot_inj _ _ h2uu.1 h2uu.2 h1uu.1 h1uu.2 s1
  have e2 := termSlot_inj _ _ h2uv.1 h2uv.2 h1uv.1 h1uv.2 s2
  have e3 := termSlot_inj _ _ h2vv.1 h2vv.2 h1vv.1 h1vv.2 s3
  unfold formTail at ht
  rw [e1, e2, e3] at ht
  have hr := List.append_cancel_left ht
  have hrhs : (showInt q2.rhs).data = (showInt q1.rhs).data := by
    injection hr with _ hr
    injection hr with _ hr
    injection hr with _ hr
  have e4 := int_toString_inj _ _ hrhs
  obtain ⟨a1, a2, a3, a4⟩ := q1
  obtain ⟨b1, b2, b3, b4⟩ := q2
  simp only at e1 e2 e3 e4
  rw [e1, e2, e3, e4]

/-- Witness of C20: the form `(0, 5, -3, 7)` and its text `5uv - 3v^2 = 7`; the
form `(0, 5, 3, 7)` has another text. -/
theorem C20_QF_to_expr_injective_witness :
    (-2147483647 ≤ (0 : Int) ∧ (0 : Int) ≤ 2147483647) ∧
    (-2147483647 ≤ (5 : Int) ∧ (5 : Int) ≤ 2147483647) ∧
    (-2147483647 ≤ (-3 : Int) ∧ (-3 : Int) ≤ 2147483647) ∧
    QF_to_expr ⟨0, 5, -3, 7⟩ "u" "v" = "5uv - 3v^2 = 7" ∧
    QF_to_expr ⟨0, 5, 3, 7⟩ "u" "v" ≠ QF_to_expr ⟨0, 5, -3, 7⟩ "u" "v" ∧
    (⟨0, 5, -3, 7⟩ : QF) = ⟨0, 5, -3, 7⟩ :=
  ⟨by decide, by decide, by decide, by decide, by decide,
    C20_QF_to_expr_injective ⟨0, 5, -3, 7⟩ ⟨0, 5, -3, 7⟩ (by decide) (by decide) (by decide)
      (by decide) (by decide) (by decide) rfl⟩

end AntiSMT
